import Mathlib

/-!
# Zignature-App: the viewer/signer panel and the upload screen

A shallow embedding of `src/components/PDFViewer.jsx` and `src/pages/Home.js`.

* React state (`useState`) is an explicit record; every handler is a function
  from the state before the event to the state after it together with the
  list of externally visible calls it made, in order.
* JavaScript numbers are idealised: page numbers are integers (`Int`), raster
  and page dimensions are exact rationals (`ℚ`), so `0.2` is one fifth and `0.9`
  nine tenths.
* The `signatures` object is the list of its own properties in creation
  order.  A property key is the canonical decimal string of an integer page
  number; the key `String(n)` is identified with `n`.
* Third-party collaborators (the signature pad, `fetch`, `pdf-lib`) are not
  part of the repository; what they answer is a parameter.
-/

namespace Zignature

/-! ## Data model -/

/-- The placement object `{ x, y }` stored with a signature. -/
structure Position where
  x : ℚ
  y : ℚ
deriving DecidableEq, Repr

/-- One value of the `signatures` object: `{ dataUrl, position }`. -/
structure SignatureRecord where
  dataUrl : String
  position : Position
deriving DecidableEq, Repr

/-- The `signatures` object: its own properties, in creation order. -/
abbrev Signatures := List (Int × SignatureRecord)

/-- The handle in `signaturePadRef.current`.  The widget is a black box: the
model keeps what `toDataURL()` answers for the present drawing surface and what
it answers for an emptied surface. -/
structure SignaturePad where
  dataUrl : String
  blankUrl : String
deriving DecidableEq, Repr

/-- The call `signaturePadRef.current.toDataURL()`. -/
def SignaturePad.toDataURL (pad : SignaturePad) : String := pad.dataUrl

/-- The call `signaturePadRef.current.clear()`. -/
def SignaturePad.clear (pad : SignaturePad) : SignaturePad :=
  { pad with dataUrl := pad.blankUrl }

/-- The component state of `PDFViewer` (its five `useState` cells and the ref). -/
structure ViewerState where
  pageCount : Int
  signatures : Signatures
  currentPage : Int
  isSigningMode : Bool
  isGenerating : Bool
  signaturePadRef : Option SignaturePad
deriving DecidableEq, Repr

/-- The state at first render: `useState(0)`, `useState({})`, `useState(1)`,
`useState(false)`, `useState(false)`, `useRef(null)`. -/
def initialState : ViewerState :=
  { pageCount := 0, signatures := [], currentPage := 1,
    isSigningMode := false, isGenerating := false, signaturePadRef := none }

/-! ## JavaScript object semantics for integer-like keys -/

/-- A key is an array index when its number lies in `0 .. 2^32 - 2`. -/
def isArrayIndex (k : Int) : Bool := decide (0 ≤ k) && decide (k < 4294967295)

/-- Property read `o[k]`. -/
def getProp : Signatures → Int → Option SignatureRecord
  | [], _ => none
  | (k', v) :: rest, k => if k' = k then some v else getProp rest k

/-- Property write `o[k] = v`: an existing property keeps its place, a new one
is created last. -/
def setProp : Signatures → Int → SignatureRecord → Signatures
  | [], k, v => [(k, v)]
  | (k', v') :: rest, k, v =>
    if k' = k then (k, v) :: rest else (k', v') :: setProp rest k v

/-- Insertion of a property into a list ascending in the key. -/
def insertIndexKey (e : Int × SignatureRecord) : Signatures → Signatures
  | [] => [e]
  | hd :: tl => if e.1 ≤ hd.1 then e :: hd :: tl else hd :: insertIndexKey e tl

/-- Ascending numeric order of the array-index properties. -/
def sortIndexKeys : Signatures → Signatures
  | [] => []
  | e :: rest => insertIndexKey e (sortIndexKeys rest)

namespace Object

/-- The list `Object.entries(o)`: own properties in OrdinaryOwnPropertyKeys
order, i.e. array-index keys in ascending numeric order, then every other key
in creation order. -/
def entries (o : Signatures) : Signatures :=
  sortIndexKeys (o.filter fun e => isArrayIndex e.1) ++
    o.filter fun e => !isArrayIndex e.1

/-- The list `Object.keys(o)`. -/
def keys (o : Signatures) : List Int := (entries o).map Prod.fst

end Object

/-- The object spread `{ ...prev }`: a fresh object receiving every own
property of `prev`, in `Object.entries` order. -/
def spread (prev : Signatures) : Signatures :=
  (Object.entries prev).foldl (fun acc e => setProp acc e.1 e.2) []

/-- The call `parseInt(pageNum)` on a property key; on the canonical decimal
string of an integer it gives that integer back. -/
def parseInt (pageNum : Int) : Int := pageNum

/-- Keys pairwise distinct: what every JavaScript object satisfies. -/
def WellFormed (o : Signatures) : Prop := (o.map Prod.fst).Nodup

instance (o : Signatures) : Decidable (WellFormed o) :=
  inferInstanceAs (Decidable (o.map Prod.fst).Nodup)

/-! ## The pdf-lib and browser collaborators -/

/-- The answer of `page.getSize()`. -/
structure PageSize where
  width : ℚ
  height : ℚ
deriving DecidableEq, Repr

/-- An embedded raster (`PDFImage`), known by its pixel dimensions. -/
structure PngImage where
  width : ℚ
  height : ℚ
deriving DecidableEq, Repr

/-- The call `pngImage.scale(factor)`: both dimensions times the factor. -/
def PngImage.scale (img : PngImage) (factor : ℚ) : PageSize :=
  { width := img.width * factor, height := img.height * factor }

/-- The options object handed to `page.drawImage`. -/
structure DrawOptions where
  x : ℚ
  y : ℚ
  width : ℚ
  height : ℚ
  opacity : ℚ
deriving DecidableEq, Repr

/-- One `pages[pageIndex].drawImage(image, options)` call. -/
structure DrawCall where
  pageIndex : Int
  image : PngImage
  options : DrawOptions
deriving DecidableEq, Repr

/-- Raw bytes (an `ArrayBuffer` / `Uint8Array`). -/
abbrev Bytes := List Nat

/-- A fetch `Response`; `arrayBuffer` is `none` when reading the body rejects. -/
structure Response where
  arrayBuffer : Option Bytes
deriving DecidableEq, Repr

/-- What the collaborators answer; `none` stands for a thrown error or a
rejected promise. -/
structure Env where
  fetch : String → Option Response
  load : Bytes → Option (List PageSize)
  embedPng : String → Option PngImage
  save : List DrawCall → Option Bytes

/-- Externally visible calls of the viewer panel. -/
inductive Effect where
  | setIsGenerating (b : Bool)
  | fetch (url : String)
  | arrayBuffer
  | load (bytes : Bytes)
  | embedPng (dataUrl : String)
  | drawImage (call : DrawCall)
  | save
  | download (data : Bytes) (filename : String) (mimeType : String)
  | consoleError (msg : String)
  | alert (msg : String)
deriving DecidableEq, Repr

/-! ## Handlers of `PDFViewer` -/

/-- Handler `handleDocumentLoad`. -/
def handleDocumentLoad (numPages : Int) (s : ViewerState) : ViewerState :=
  { s with pageCount := numPages }

/-- The viewer callback `onPageChange`: `setCurrentPage(currentPage + 1)`. -/
def onPageChange (currentPage : Int) (s : ViewerState) : ViewerState :=
  { s with currentPage := currentPage + 1 }

/-- Handler `handleSignature` (lines 23-37). -/
def handleSignature (s : ViewerState) : ViewerState × List Effect :=
  match s.signaturePadRef with
  | none => (s, [])
  | some pad =>
    let signatureDataUrl := pad.toDataURL
    if signatureDataUrl ≠ "" then
      ({ s with
          signatures := setProp (spread s.signatures) s.currentPage
            { dataUrl := signatureDataUrl, position := { x := 400, y := 650 } },
          isSigningMode := false }, [])
    else (s, [])

/-- The Clear button: `signaturePadRef.current?.clear()`. -/
def onClearClick (s : ViewerState) : ViewerState :=
  { s with signaturePadRef := s.signaturePadRef.map SignaturePad.clear }

/-- The Cancel button: `setIsSigningMode(false)`. -/
def onCancelClick (s : ViewerState) : ViewerState :=
  { s with isSigningMode := false }

/-- The Add Signature button: `setIsSigningMode(true)`. -/
def onAddSignatureClick (s : ViewerState) : ViewerState :=
  { s with isSigningMode := true }

/-- The preview `signatures[currentPage] && <img src=...dataUrl />`: the image
source shown, if any. -/
def preview (s : ViewerState) : Option String :=
  (getProp s.signatures s.currentPage).map SignatureRecord.dataUrl

/-- The `disabled` attribute of the Download Signed PDF button (line 262). -/
def downloadDisabled (s : ViewerState) : Bool :=
  (Object.keys s.signatures).length == 0 || s.isGenerating

/-- The body of the `for ... of Object.entries(signatures)` loop (lines 49-68):
the calls made, and whether the loop ran to its end without a throw. -/
def signLoop (env : Env) (pages : List PageSize) :
    List (Int × SignatureRecord) → List Effect × Bool
  | [] => ([], true)
  | (pageNum, signature) :: rest =>
    let pageIndex := parseInt pageNum - 1
    if 0 ≤ pageIndex ∧ pageIndex < pages.length then
      match pages.get? pageIndex.toNat with
      | none => ([], false)
      | some page =>
        let height := page.height
        match env.embedPng signature.dataUrl with
        | none => ([Effect.embedPng signature.dataUrl], false)
        | some pngImage =>
          let pngDims := pngImage.scale 0.2
          let call : DrawCall :=
            { pageIndex := pageIndex, image := pngImage,
              options :=
                { x := 400, y := height - 650 - pngDims.height,
                  width := pngDims.width, height := pngDims.height,
                  opacity := 0.9 } }
          let r := signLoop env pages rest
          (Effect.embedPng signature.dataUrl :: Effect.drawImage call :: r.1, r.2)
    else signLoop env pages rest

/-- The `drawImage` call of lines 60-66 for the page at `pageIndex`, of size
`page`, and the embedded raster `pngImage`. -/
def signatureDraw (pageIndex : Int) (page : PageSize) (pngImage : PngImage) : DrawCall :=
  { pageIndex := pageIndex, image := pngImage,
    options :=
      { x := 400, y := page.height - 650 - (pngImage.scale 0.2).height,
        width := (pngImage.scale 0.2).width, height := (pngImage.scale 0.2).height,
        opacity := 0.9 } }

/-- The argument of a `drawImage` call, nothing for any other call. -/
def Effect.drawCall? : Effect → Option DrawCall
  | Effect.drawImage c => some c
  | _ => none

/-- The `drawImage` calls of a trace, in order. -/
def drawCalls (trace : List Effect) : List DrawCall := trace.filterMap Effect.drawCall?

/-- Whether a call is an `alert`. -/
def Effect.isAlert : Effect → Bool
  | Effect.alert _ => true
  | _ => false

/-- Whether a call is a `download`. -/
def Effect.isDownload : Effect → Bool
  | Effect.download _ _ _ => true
  | _ => false

/-- Whether a call is one of the attempts that are made once per run:
`fetch`, `arrayBuffer`, `PDFDocument.load`, `save`. -/
def Effect.isAttempt : Effect → Bool
  | Effect.fetch _ => true
  | Effect.arrayBuffer => true
  | Effect.load _ => true
  | Effect.save => true
  | _ => false

/-- The `try` block of `downloadSignedPdf` (lines 42-72): the calls made, and
whether it completed without a throw. -/
def tryBlock (env : Env) (fileUrl : String) (signatures : Signatures) :
    List Effect × Bool :=
  match env.fetch fileUrl with
  | none => ([Effect.fetch fileUrl], false)
  | some response =>
    match response.arrayBuffer with
    | none => ([Effect.fetch fileUrl, Effect.arrayBuffer], false)
    | some existingPdfBytes =>
      match env.load existingPdfBytes with
      | none =>
        ([Effect.fetch fileUrl, Effect.arrayBuffer, Effect.load existingPdfBytes], false)
      | some pages =>
        let r := signLoop env pages (Object.entries signatures)
        let opened :=
          [Effect.fetch fileUrl, Effect.arrayBuffer, Effect.load existingPdfBytes]
        if r.2 then
          match env.save (drawCalls r.1) with
          | none => (opened ++ r.1 ++ [Effect.save], false)
          | some pdfBytes =>
            (opened ++ r.1 ++
              [Effect.save,
               Effect.download pdfBytes "signed_document.pdf" "application/pdf"], true)
        else (opened ++ r.1, false)

/-- The `catch` block (lines 74-76), run only after a throw. -/
def catchBlock (ok : Bool) : List Effect :=
  if ok then []
  else [Effect.consoleError "Error generating signed PDF:",
        Effect.alert "Failed to generate signed PDF. Please try again."]

/-- Handler `downloadSignedPdf` (lines 39-80), run to completion. -/
def downloadSignedPdf (env : Env) (fileUrl : String) (s : ViewerState) :
    ViewerState × List Effect :=
  let r := tryBlock env fileUrl s.signatures
  ({ s with isGenerating := false },
    Effect.setIsGenerating true :: r.1 ++ catchBlock r.2 ++ [Effect.setIsGenerating false])

/-! ## The panel as a transition system -/

/-- What can happen to the panel: notifications of the viewer widget, a change
of the capture surface (the pad mounting, unmounting or receiving strokes) and
the five buttons. -/
inductive Event where
  | documentLoad (numPages : Int)
  | pageChange (currentPage : Int)
  | padChange (pad : Option SignaturePad)
  | addSignatureClick
  | saveSignatureClick
  | clearClick
  | cancelClick
  | downloadClick (env : Env)

/-- One transition of the panel showing the document `fileUrl`.  A click on
the disabled download button does nothing. -/
def step (fileUrl : String) (s : ViewerState) : Event → ViewerState
  | Event.documentLoad numPages => handleDocumentLoad numPages s
  | Event.pageChange currentPage => onPageChange currentPage s
  | Event.padChange pad => { s with signaturePadRef := pad }
  | Event.addSignatureClick => onAddSignatureClick s
  | Event.saveSignatureClick => (handleSignature s).1
  | Event.clearClick => onClearClick s
  | Event.cancelClick => onCancelClick s
  | Event.downloadClick env =>
    if downloadDisabled s then s else (downloadSignedPdf env fileUrl s).1

/-- The state after a sequence of events from the first render. -/
def run (fileUrl : String) (events : List Event) : ViewerState :=
  events.foldl (step fileUrl) initialState

/-! ## The upload screen `Home` -/

/-- A browser `File`: its declared media type and what `readAsDataURL` will
deliver for it. -/
structure File where
  type : String
  dataUrl : String
deriving DecidableEq, Repr

/-- The component state of `Home`. -/
structure HomeState where
  pdfFile : Option String
deriving DecidableEq, Repr

/-- Externally visible calls of the upload screen. -/
inductive HomeEffect where
  | readAsDataURL (file : File)
  | alert (msg : String)
deriving DecidableEq, Repr

/-- Handler `handleFileChange` (lines 7-16); `files` is `e.target.files`. -/
def handleFileChange (files : List File) (s : HomeState) : HomeState × List HomeEffect :=
  match files.head? with
  | some file =>
    if file.type = "application/pdf" then (s, [HomeEffect.readAsDataURL file])
    else (s, [HomeEffect.alert "Please upload a PDF file."])
  | none => (s, [HomeEffect.alert "Please upload a PDF file."])

/-- The callback `reader.onload`: `setPdfFile(ev.target.result)`. -/
def readerOnLoad (result : String) (_s : HomeState) : HomeState :=
  { pdfFile := some result }

/-! ## Concrete states used as examples -/

/-- A state in signing mode on page 2 that already holds a record for pages 2 and 5. -/
def signingState : ViewerState :=
  { pageCount := 6,
    signatures :=
      [(5, { dataUrl := "data:image/png;base64,RklWRQ==", position := { x := 400, y := 650 } }),
       (2, { dataUrl := "data:image/png;base64,T0xE", position := { x := 400, y := 650 } })],
    currentPage := 2, isSigningMode := true, isGenerating := false,
    signaturePadRef :=
      some { dataUrl := "data:image/png;base64,TkVX", blankUrl := "" } }

/-- The state `signingState` with nothing captured on the pad. -/
def emptyPadState : ViewerState :=
  { signingState with signaturePadRef := some { dataUrl := "", blankUrl := "" } }

/-- A state whose pad answers a blank-image data URL for an emptied surface, as
an HTML canvas does. -/
def canvasState : ViewerState :=
  { pageCount := 1, signatures := [], currentPage := 1, isSigningMode := true,
    isGenerating := false,
    signaturePadRef :=
      some { dataUrl := "data:image/png;base64,U1RST0tF",
             blankUrl := "data:image/png;base64,QkxBTks=" } }

/-- Records on pages 1 and 3, saved for page 3 first. -/
def pages13State : ViewerState :=
  { pageCount := 2,
    signatures :=
      [(3, { dataUrl := "data:image/png;base64,VEhSRUU=", position := { x := 400, y := 650 } }),
       (1, { dataUrl := "data:image/png;base64,T05F", position := { x := 400, y := 650 } })],
    currentPage := 1, isSigningMode := false, isGenerating := false,
    signaturePadRef := none }

/-- Collaborators that never fail, over a two-page A4 document. -/
def twoPageEnv : Env :=
  { fetch := fun _ => some { arrayBuffer := some [37, 80, 68, 70] },
    load := fun _ => some [{ width := 595, height := 842 }, { width := 595, height := 842 }],
    embedPng := fun _ => some { width := 350, height := 150 },
    save := fun _ => some [37, 80, 68, 70, 45] }

/-- Collaborators over a six-page document for which only the record
`data:image/png;base64,T0xE` can be embedded. -/
def embedFailEnv : Env :=
  { fetch := fun _ => some { arrayBuffer := some [37, 80, 68, 70] },
    load := fun _ => some (List.replicate 6 { width := 595, height := 842 }),
    embedPng := fun d =>
      if d = "data:image/png;base64,T0xE" then some { width := 350, height := 150 } else none,
    save := fun _ => some [37, 80, 68, 70, 45] }

/-- A session on a three-page document: a signature is saved on page 3, then
one on page 1. -/
def signingSession : List Event :=
  [Event.documentLoad 3,
   Event.pageChange 2,
   Event.addSignatureClick,
   Event.padChange (some { dataUrl := "data:image/png;base64,VEhSRUU=",
                           blankUrl := "data:image/png;base64,QkxBTks=" }),
   Event.saveSignatureClick,
   Event.padChange none,
   Event.pageChange 0,
   Event.addSignatureClick,
   Event.padChange (some { dataUrl := "data:image/png;base64,T05F",
                           blankUrl := "data:image/png;base64,QkxBTks=" }),
   Event.saveSignatureClick,
   Event.padChange none]

/-- Collaborators that never fail, over a three-page A4 document. -/
def threePageEnv : Env :=
  { fetch := fun _ => some { arrayBuffer := some [37, 80, 68, 70] },
    load := fun _ => some (List.replicate 3 { width := 595, height := 842 }),
    embedPng := fun _ => some { width := 350, height := 150 },
    save := fun _ => some [37, 80, 68, 70, 45] }

/-! ## Lemmas on the object operations -/

theorem getProp_setProp (o : Signatures) (k k' : Int) (v : SignatureRecord) :
    getProp (setProp o k v) k' = if k = k' then some v else getProp o k' := by
  induction o with
  | nil => simp [setProp, getProp]
  | cons hd tl ih =>
    obtain ⟨a, b⟩ := hd
    by_cases h : a = k
    · subst h
      by_cases h2 : a = k' <;> simp [setProp, getProp, h2]
    · by_cases h2 : a = k'
      · subst h2
        simp [setProp, getProp, h, Ne.symm h]
      · simp [setProp, getProp, h, h2, ih]

theorem getProp_insertIndexKey (e : Int × SignatureRecord) (l : Signatures) (k : Int) :
    getProp (insertIndexKey e l) k = if e.1 = k then some e.2 else getProp l k := by
  induction l with
  | nil => obtain ⟨a, b⟩ := e; simp [insertIndexKey, getProp]
  | cons hd tl ih =>
    obtain ⟨a, b⟩ := e
    obtain ⟨c, d⟩ := hd
    simp only [insertIndexKey]
    by_cases h : a ≤ c
    · simp [h, getProp]
    · simp only [h, if_false, getProp, ih]
      by_cases h2 : c = k
      · subst h2
        have : a ≠ c := fun hh => h (le_of_eq hh)
        simp [this]
      · simp [h2]

theorem getProp_sortIndexKeys (l : Signatures) (k : Int) :
    getProp (sortIndexKeys l) k = getProp l k := by
  induction l with
  | nil => rfl
  | cons hd tl ih =>
    obtain ⟨a, b⟩ := hd
    simp [sortIndexKeys, getProp_insertIndexKey, ih, getProp]

theorem getProp_append (l₁ l₂ : Signatures) (k : Int) :
    getProp (l₁ ++ l₂) k = (getProp l₁ k).orElse fun _ => getProp l₂ k := by
  induction l₁ with
  | nil => simp [getProp]
  | cons hd tl ih =>
    obtain ⟨a, b⟩ := hd
    by_cases h : a = k <;> simp [getProp, h, ih]

theorem getProp_filter (p : Int → Bool) (l : Signatures) (k : Int) :
    getProp (l.filter fun e => p e.1) k = if p k then getProp l k else none := by
  induction l with
  | nil => simp [getProp]
  | cons hd tl ih =>
    obtain ⟨a, b⟩ := hd
    by_cases hp : p a = true
    · by_cases h : a = k
      · subst h; simp [List.filter, hp, getProp]
      · simp [List.filter, hp, getProp, h, ih]
    · by_cases h : a = k
      · subst h; simp [List.filter, hp, getProp, ih]
      · simp [List.filter, hp, getProp, h, ih]

theorem getProp_entries (o : Signatures) (k : Int) :
    getProp (Object.entries o) k = getProp o k := by
  unfold Object.entries
  rw [getProp_append, getProp_sortIndexKeys, getProp_filter isArrayIndex,
    getProp_filter (fun k => !isArrayIndex k)]
  by_cases h : isArrayIndex k = true
  · simp [h]
  · simp [h]


theorem insertIndexKey_perm (e : Int × SignatureRecord) (l : Signatures) :
    (insertIndexKey e l).Perm (e :: l) := by
  induction l with
  | nil => simp [insertIndexKey]
  | cons hd tl ih =>
    simp only [insertIndexKey]
    split
    · exact List.Perm.refl _
    · exact (List.Perm.cons hd ih).trans (List.Perm.swap e hd tl)

theorem sortIndexKeys_perm (l : Signatures) : (sortIndexKeys l).Perm l := by
  induction l with
  | nil => exact List.Perm.refl _
  | cons hd tl ih =>
    exact (insertIndexKey_perm hd _).trans (List.Perm.cons hd ih)

theorem entries_perm (o : Signatures) : (Object.entries o).Perm o := by
  unfold Object.entries
  refine (List.Perm.append_right _ (sortIndexKeys_perm _)).trans ?_
  exact List.filter_append_perm (fun e => isArrayIndex e.1) o

theorem wellFormed_entries {o : Signatures} (h : WellFormed o) :
    WellFormed (Object.entries o) :=
  (((entries_perm o).map Prod.fst).nodup_iff).2 h

theorem keys_setProp (o : Signatures) (k : Int) (v : SignatureRecord) :
    (setProp o k v).map Prod.fst =
      if k ∈ o.map Prod.fst then o.map Prod.fst else o.map Prod.fst ++ [k] := by
  induction o with
  | nil => simp [setProp]
  | cons hd tl ih =>
    obtain ⟨a, b⟩ := hd
    by_cases h : a = k
    · subst h; simp [setProp]
    · have h' : ¬ k = a := fun hh => h hh.symm
      by_cases hm : k ∈ tl.map Prod.fst
      · simp only [setProp, h, if_false, List.map_cons, ih, hm, if_true, List.mem_cons, or_true]
      · simp only [setProp, h, if_false, List.map_cons, ih, hm, List.mem_cons, h', or_self,
          List.cons_append]

theorem wellFormed_setProp {o : Signatures} (h : WellFormed o) (k : Int) (v : SignatureRecord) :
    WellFormed (setProp o k v) := by
  unfold WellFormed at *
  rw [keys_setProp]
  split
  · exact h
  · rename_i hk
    exact List.Nodup.append h (List.nodup_singleton k) (by simpa using hk)

theorem setProp_of_not_mem {o : Signatures} {k : Int} (v : SignatureRecord)
    (h : k ∉ o.map Prod.fst) : setProp o k v = o ++ [(k, v)] := by
  induction o with
  | nil => rfl
  | cons hd tl ih =>
    obtain ⟨a, b⟩ := hd
    simp only [List.map_cons, List.mem_cons, not_or] at h
    have : ¬ a = k := fun hh => h.1 hh.symm
    simp [setProp, this, ih h.2]

theorem foldl_setProp_of_nodup (l acc : Signatures)
    (hl : (l.map Prod.fst).Nodup) (hd : ∀ k ∈ l.map Prod.fst, k ∉ acc.map Prod.fst) :
    l.foldl (fun acc e => setProp acc e.1 e.2) acc = acc ++ l := by
  induction l generalizing acc with
  | nil => simp
  | cons e tl ih =>
    obtain ⟨a, b⟩ := e
    simp only [List.map_cons, List.nodup_cons] at hl
    simp only [List.foldl_cons]
    rw [setProp_of_not_mem b (hd a (by simp)), ih _ hl.2]
    · simp
    · intro k hk
      simp only [List.map_append, List.map_cons, List.map_nil, List.mem_append,
        List.mem_singleton, not_or]
      refine ⟨hd k (by simp [hk]), ?_⟩
      rintro rfl
      exact hl.1 hk

theorem spread_of_wellFormed {o : Signatures} (h : WellFormed o) :
    spread o = Object.entries o := by
  unfold spread
  rw [foldl_setProp_of_nodup _ [] (wellFormed_entries h) (by simp)]
  simp


theorem getProp_spread {o : Signatures} (h : WellFormed o) (k : Int) :
    getProp (spread o) k = getProp o k := by
  rw [spread_of_wellFormed h, getProp_entries]

theorem wellFormed_spread {o : Signatures} (h : WellFormed o) : WellFormed (spread o) := by
  rw [spread_of_wellFormed h]; exact wellFormed_entries h

theorem getProp_eq_none_iff (o : Signatures) (k : Int) :
    getProp o k = none ↔ k ∉ o.map Prod.fst := by
  induction o with
  | nil => simp [getProp]
  | cons hd tl ih =>
    obtain ⟨a, b⟩ := hd
    by_cases h : a = k
    · subst h; simp [getProp]
    · have h' : ¬ k = a := fun hh => h hh.symm
      simp [getProp, h, h', ih]

theorem filter_key_length_le_one {o : Signatures} (h : WellFormed o) (k : Int) :
    (o.filter fun e => e.1 = k).length ≤ 1 := by
  induction o with
  | nil => simp
  | cons hd tl ih =>
    obtain ⟨a, b⟩ := hd
    unfold WellFormed at h
    simp only [List.map_cons, List.nodup_cons] at h
    by_cases hk : a = k
    · subst hk
      have : tl.filter (fun e => e.1 = a) = [] := by
        rw [List.filter_eq_nil_iff]
        intro e he hea
        simp only [decide_eq_true_eq] at hea
        exact h.1 (hea ▸ List.mem_map_of_mem Prod.fst he)
      simp [List.filter, this]
    · simpa [List.filter, hk] using ih h.2

theorem handleSignature_some (s : ViewerState) (pad : SignaturePad)
    (hpad : s.signaturePadRef = some pad) (hd : pad.toDataURL ≠ "") :
    handleSignature s =
      ({ s with
          signatures := setProp (spread s.signatures) s.currentPage
            { dataUrl := pad.toDataURL, position := { x := 400, y := 650 } },
          isSigningMode := false }, []) := by
  unfold handleSignature
  rw [hpad]
  simp [hd]

/-- Claim C3: with the pad present and a non-empty captured payload `d`,
`handleSignature` yields a mapping in which the current page `P` maps to exactly
`{ dataUrl: d, position: (400, 650) }`, every other page keeps its record, signing
mode becomes false and the current page stays `P`; the keys stay pairwise
distinct, so `Object.entries` holds at most one record per page; the preview shows
`d` in every state with this mapping and current page `P`; and a second save on the
same page leaves exactly one record for `P`, holding the second image, which the
preview then shows. -/
theorem handleSignature_stores (s : ViewerState) (pad : SignaturePad)
    (hpad : s.signaturePadRef = some pad) (hd : pad.toDataURL ≠ "")
    (hwf : WellFormed s.signatures) :
    getProp (handleSignature s).1.signatures s.currentPage =
        some { dataUrl := pad.toDataURL, position := { x := 400, y := 650 } } ∧
      (∀ k, k ≠ s.currentPage →
        getProp (handleSignature s).1.signatures k = getProp s.signatures k) ∧
      (handleSignature s).1.isSigningMode = false ∧
      (handleSignature s).1.currentPage = s.currentPage ∧
      WellFormed (handleSignature s).1.signatures ∧
      (∀ k, ((Object.entries (handleSignature s).1.signatures).filter
        fun e => e.1 = k).length ≤ 1) ∧
      (∀ t : ViewerState, t.signatures = (handleSignature s).1.signatures →
        t.currentPage = s.currentPage → preview t = some pad.toDataURL) ∧
      (∀ pad₂ : SignaturePad, pad₂.toDataURL ≠ "" →
        ∀ t : ViewerState,
          t = (handleSignature
            { (handleSignature s).1 with signaturePadRef := some pad₂ }).1 →
          getProp t.signatures s.currentPage =
              some { dataUrl := pad₂.toDataURL, position := { x := 400, y := 650 } } ∧
            ((Object.entries t.signatures).filter fun e => e.1 = s.currentPage).length = 1 ∧
            preview t = some pad₂.toDataURL) := by
  have key : ∀ (u : ViewerState) (p : SignaturePad), u.signaturePadRef = some p →
      p.toDataURL ≠ "" → WellFormed u.signatures →
      getProp (handleSignature u).1.signatures u.currentPage =
          some { dataUrl := p.toDataURL, position := { x := 400, y := 650 } } ∧
        (∀ k, k ≠ u.currentPage →
          getProp (handleSignature u).1.signatures k = getProp u.signatures k) ∧
        (handleSignature u).1.isSigningMode = false ∧
        (handleSignature u).1.currentPage = u.currentPage ∧
        WellFormed (handleSignature u).1.signatures := by
    intro u p hp hne hw
    rw [handleSignature_some u p hp hne]
    refine ⟨?_, ?_, rfl, rfl, ?_⟩
    · simp [getProp_setProp]
    · intro k hk
      simp only [getProp_setProp]
      rw [if_neg (fun hh => hk hh.symm), getProp_spread hw]
    · exact wellFormed_setProp (wellFormed_spread hw) _ _
  obtain ⟨h1, h2, h3, h4, h5⟩ := key s pad hpad hd hwf
  refine ⟨h1, h2, h3, h4, h5, ?_, ?_, ?_⟩
  · intro k
    exact filter_key_length_le_one (wellFormed_entries h5) k
  · intro t ht hc
    simp [preview, ht, hc, h1]
  · intro pad₂ hd₂ t ht
    have hc : ({ (handleSignature s).1 with signaturePadRef := some pad₂ } : ViewerState).currentPage
        = s.currentPage := h4
    obtain ⟨g1, _, _, g4, g5⟩ :=
      key { (handleSignature s).1 with signaturePadRef := some pad₂ } pad₂ rfl hd₂ h5
    rw [hc] at g1
    subst ht
    refine ⟨g1, ?_, ?_⟩
    · refine le_antisymm (filter_key_length_le_one (wellFormed_entries g5) _) ?_
      rw [Nat.succ_le_iff, List.length_pos, Ne, List.filter_eq_nil_iff]
      intro hall
      have hnone := (getProp_eq_none_iff _ s.currentPage).not.1
        (by rw [getProp_entries, g1]; simp)
      simp only [not_not, List.mem_map] at hnone
      obtain ⟨e, he, hek⟩ := hnone
      exact hall e he (by simp [hek])
    · have hcur := g4.trans hc
      unfold preview
      rw [hcur, g1]; rfl



/-- Saving on page 2 of `signingState` replaces the record of page 2 and keeps that of page 5. -/
theorem handleSignature_stores_witness :
    signingState.signaturePadRef =
        some { dataUrl := "data:image/png;base64,TkVX", blankUrl := "" } ∧
      WellFormed signingState.signatures ∧
      getProp (handleSignature signingState).1.signatures 2 =
        some { dataUrl := "data:image/png;base64,TkVX", position := { x := 400, y := 650 } } ∧
      getProp (handleSignature signingState).1.signatures 5 =
        getProp signingState.signatures 5 :=
  have h := handleSignature_stores signingState
    { dataUrl := "data:image/png;base64,TkVX", blankUrl := "" } rfl (by decide) (by decide)
  ⟨rfl, by decide, h.1, h.2.1 5 (by decide)⟩

/-- Claim C9: when the signature pad is absent, or present with an empty captured
payload, `handleSignature` changes nothing: the state after is the state before (in
particular the mapping, the current page and the signing-mode flag), and it makes no
external call, so no alert is raised. -/
theorem handleSignature_no_capture (s : ViewerState)
    (h : s.signaturePadRef = none ∨
      ∃ pad, s.signaturePadRef = some pad ∧ pad.toDataURL = "") :
    (handleSignature s).1 = s ∧
      (handleSignature s).1.signatures = s.signatures ∧
      (handleSignature s).1.currentPage = s.currentPage ∧
      (handleSignature s).1.isSigningMode = s.isSigningMode ∧
      (handleSignature s).2 = [] ∧
      ∀ msg, Effect.alert msg ∉ (handleSignature s).2 := by
  have key : handleSignature s = (s, []) := by
    unfold handleSignature
    rcases h with h | ⟨pad, h, he⟩
    · rw [h]
    · rw [h]; simp [he]
  rw [key]
  simp

/-- With an empty capture, `signingState` keeps its mapping and stays in signing mode. -/
theorem handleSignature_no_capture_witness :
    emptyPadState.signaturePadRef = some { dataUrl := "", blankUrl := "" } ∧
      (handleSignature emptyPadState).1.signatures = signingState.signatures ∧
      (handleSignature emptyPadState).1.isSigningMode = true :=
  ⟨rfl,
    (handleSignature_no_capture emptyPadState (Or.inr ⟨_, rfl, rfl⟩)).2.1,
    (handleSignature_no_capture emptyPadState (Or.inr ⟨_, rfl, rfl⟩)).2.2.2.1⟩

/-- Claim C4, evaluated at the failing input: in `canvasState` the mapping is empty,
the current page is 1 and the pad exports a blank-image data URL for an emptied
surface, as an HTML canvas does.  Clear followed by `handleSignature`, with no drawing
in between, passes the guard `if (signatureDataUrl)` and stores the blank image as the
record of page 1, so the mapping is no longer the one before and the download button
becomes enabled. -/
theorem clear_then_save_creates_record :
    canvasState.signatures = [] ∧
      (onClearClick canvasState).signatures = canvasState.signatures ∧
      (handleSignature (onClearClick canvasState)).1.signatures ≠ canvasState.signatures ∧
      getProp (handleSignature (onClearClick canvasState)).1.signatures 1 =
        some { dataUrl := "data:image/png;base64,QkxBTks=",
               position := { x := 400, y := 650 } } ∧
      Object.keys (handleSignature (onClearClick canvasState)).1.signatures = [1] ∧
      downloadDisabled (handleSignature (onClearClick canvasState)).1 = false := by
  decide

theorem keys_eq_nil_iff (o : Signatures) : Object.keys o = [] ↔ o = [] := by
  unfold Object.keys
  rw [List.map_eq_nil_iff]
  constructor
  · intro h
    have := (entries_perm o).length_eq
    rw [h] at this
    exact List.length_eq_zero.1 this.symm
  · rintro rfl; rfl

/-- Claim C6: the download button is disabled exactly when the signature mapping has
no property or `isGenerating` is true; so it is disabled in every state without a
stored signature, and enabled in every state with a stored signature and no
generation in flight. -/
theorem downloadDisabled_iff (s : ViewerState) :
    (downloadDisabled s = true ↔ s.signatures = [] ∨ s.isGenerating = true) ∧
      (s.signatures = [] → downloadDisabled s = true) ∧
      ((∀ k, getProp s.signatures k = none) → downloadDisabled s = true) ∧
      ((∃ k r, getProp s.signatures k = some r) → s.isGenerating = false →
        downloadDisabled s = false) := by
  have main : downloadDisabled s = true ↔ s.signatures = [] ∨ s.isGenerating = true := by
    unfold downloadDisabled
    rw [Bool.or_eq_true, beq_iff_eq, List.length_eq_zero, keys_eq_nil_iff]
  refine ⟨main, fun h => main.2 (Or.inl h), ?_, ?_⟩
  · intro h
    refine main.2 (Or.inl ?_)
    cases hs : s.signatures with
    | nil => rfl
    | cons hd tl =>
      have := h hd.1
      rw [hs] at this
      simp [getProp] at this
  · rintro ⟨k, r, hk⟩ hg
    cases hd : downloadDisabled s with
    | false => rfl
    | true =>
      rcases main.1 hd with h | h
      · rw [h] at hk; simp [getProp] at hk
      · rw [hg] at h; cases h

/-- The button is disabled at first render and enabled in `signingState`. -/
theorem downloadDisabled_iff_witness :
    downloadDisabled initialState = true ∧ downloadDisabled signingState = false :=
  ⟨(downloadDisabled_iff initialState).2.1 rfl,
    (downloadDisabled_iff signingState).2.2.2 ⟨5, _, rfl⟩ rfl⟩

/-- Claim C7: `handleFileChange` starts reading a file as a data URL if and only if
that file is the first selected one and its declared type is exactly
`application/pdf`; then no alert is shown and the later `reader.onload` publishes the
data URL as `pdfFile`.  In every other case the only call is the warning alert.  In
both cases `handleFileChange` itself leaves `pdfFile` unchanged. -/
theorem handleFileChange_accepts_iff (files : List File) (s : HomeState) :
    (∀ file, HomeEffect.readAsDataURL file ∈ (handleFileChange files s).2 ↔
        files.head? = some file ∧ file.type = "application/pdf") ∧
      (∀ file, files.head? = some file → file.type = "application/pdf" →
        handleFileChange files s = (s, [HomeEffect.readAsDataURL file]) ∧
          (readerOnLoad file.dataUrl (handleFileChange files s).1).pdfFile =
            some file.dataUrl) ∧
      ((¬ ∃ file, files.head? = some file ∧ file.type = "application/pdf") →
        handleFileChange files s = (s, [HomeEffect.alert "Please upload a PDF file."])) ∧
      (handleFileChange files s).1.pdfFile = s.pdfFile := by
  unfold handleFileChange
  cases hf : files.head? with
  | none => simp
  | some f =>
    by_cases ht : f.type = "application/pdf"
    · simp only [ht, if_true]
      refine ⟨?_, ?_, ?_, trivial⟩
      · intro file
        simp only [List.mem_singleton, HomeEffect.readAsDataURL.injEq, Option.some.injEq]
        constructor
        · rintro rfl; exact ⟨rfl, ht⟩
        · rintro ⟨rfl, _⟩; rfl
      · intro file hfile _
        cases hfile
        exact ⟨rfl, rfl⟩
      · intro hno
        exact absurd ⟨f, rfl, ht⟩ hno
    · simp only [ht, if_false]
      refine ⟨?_, ?_, fun _ => trivial, trivial⟩
      · intro file
        simp only [List.mem_singleton, Option.some.injEq]
        constructor
        · intro h; cases h
        · rintro ⟨rfl, h⟩; exact absurd h ht
      · intro file hfile hty
        cases hfile
        exact absurd hty ht

/-- A PDF file is read; a PNG file gets the warning alert. -/
theorem handleFileChange_accepts_iff_witness :
    handleFileChange [{ type := "application/pdf", dataUrl := "data:application/pdf;base64,JVBERg==" }]
        { pdfFile := none } =
        ({ pdfFile := none },
          [HomeEffect.readAsDataURL
            { type := "application/pdf", dataUrl := "data:application/pdf;base64,JVBERg==" }]) ∧
      handleFileChange [{ type := "image/png", dataUrl := "data:image/png;base64,AA==" }]
        { pdfFile := none } =
        ({ pdfFile := none }, [HomeEffect.alert "Please upload a PDF file."]) :=
  ⟨((handleFileChange_accepts_iff
      [{ type := "application/pdf", dataUrl := "data:application/pdf;base64,JVBERg==" }]
      { pdfFile := none }).2.1 _ rfl rfl).1,
    (handleFileChange_accepts_iff
      [{ type := "image/png", dataUrl := "data:image/png;base64,AA==" }]
      { pdfFile := none }).2.2.1 (by decide)⟩

/-! ## Lemmas on the signing loop -/

theorem get?_of_inRange (pages : List PageSize) (i : Int) (h0 : 0 ≤ i)
    (h1 : i < pages.length) : ∃ page, pages.get? i.toNat = some page := by
  have : i.toNat < pages.length := by omega
  exact ⟨pages.get ⟨i.toNat, this⟩, List.get?_eq_get this⟩

theorem signLoop_cons_skip (env : Env) (pages : List PageSize) (k : Int)
    (r : SignatureRecord) (l : Signatures)
    (h : ¬ (0 ≤ k - 1 ∧ k - 1 < pages.length)) :
    signLoop env pages ((k, r) :: l) = signLoop env pages l := by
  simp only [signLoop, parseInt]
  rw [if_neg h]

theorem signLoop_cons_throw (env : Env) (pages : List PageSize) (k : Int)
    (r : SignatureRecord) (l : Signatures)
    (h : 0 ≤ k - 1 ∧ k - 1 < pages.length) (he : env.embedPng r.dataUrl = none) :
    signLoop env pages ((k, r) :: l) = ([Effect.embedPng r.dataUrl], false) := by
  obtain ⟨page, hp⟩ := get?_of_inRange pages (k - 1) h.1 h.2
  simp only [signLoop, parseInt]
  rw [if_pos h, hp]
  simp only [he]

theorem signLoop_cons_draw (env : Env) (pages : List PageSize) (k : Int)
    (r : SignatureRecord) (l : Signatures) (page : PageSize) (img : PngImage)
    (h : 0 ≤ k - 1 ∧ k - 1 < pages.length) (hp : pages.get? (k - 1).toNat = some page)
    (he : env.embedPng r.dataUrl = some img) :
    signLoop env pages ((k, r) :: l) =
      (Effect.embedPng r.dataUrl :: Effect.drawImage (signatureDraw (k - 1) page img) ::
        (signLoop env pages l).1, (signLoop env pages l).2) := by
  simp only [signLoop, parseInt]
  rw [if_pos h, hp]
  simp only [he]
  rfl

/-- The three ways one turn of the loop can go. -/
theorem signLoop_cons_cases (env : Env) (pages : List PageSize) (k : Int)
    (r : SignatureRecord) (l : Signatures) :
    (¬ (0 ≤ k - 1 ∧ k - 1 < pages.length) ∧
        signLoop env pages ((k, r) :: l) = signLoop env pages l) ∨
      ((0 ≤ k - 1 ∧ k - 1 < pages.length) ∧ env.embedPng r.dataUrl = none ∧
        signLoop env pages ((k, r) :: l) = ([Effect.embedPng r.dataUrl], false)) ∨
      ∃ page img, (0 ≤ k - 1 ∧ k - 1 < pages.length) ∧
        pages.get? (k - 1).toNat = some page ∧ env.embedPng r.dataUrl = some img ∧
        signLoop env pages ((k, r) :: l) =
          (Effect.embedPng r.dataUrl :: Effect.drawImage (signatureDraw (k - 1) page img) ::
            (signLoop env pages l).1, (signLoop env pages l).2) := by
  by_cases h : 0 ≤ k - 1 ∧ k - 1 < pages.length
  · obtain ⟨page, hp⟩ := get?_of_inRange pages (k - 1) h.1 h.2
    cases he : env.embedPng r.dataUrl with
    | none => exact Or.inr (Or.inl ⟨h, rfl, signLoop_cons_throw env pages k r l h he⟩)
    | some img =>
      exact Or.inr (Or.inr ⟨page, img, h, hp, rfl, signLoop_cons_draw env pages k r l page img h hp he⟩)
  · exact Or.inl ⟨h, signLoop_cons_skip env pages k r l h⟩

/-- Every call made inside the loop is an `embedPng` or a `drawImage`. -/
theorem signLoop_effects (env : Env) (pages : List PageSize) (l : Signatures) :
    ∀ e ∈ (signLoop env pages l).1,
      (∃ d, e = Effect.embedPng d) ∨ ∃ c, e = Effect.drawImage c := by
  induction l with
  | nil => simp [signLoop]
  | cons hd tl ih =>
    obtain ⟨k, r⟩ := hd
    rcases signLoop_cons_cases env pages k r tl with ⟨_, h⟩ | ⟨_, _, h⟩ | ⟨page, img, _, _, _, h⟩
    · rw [h]; exact ih
    · rw [h]; intro e he
      simp only [List.mem_singleton] at he
      exact Or.inl ⟨_, he⟩
    · rw [h]; intro e he
      simp only [List.mem_cons] at he
      rcases he with he | he | he
      · exact Or.inl ⟨_, he⟩
      · exact Or.inr ⟨_, he⟩
      · exact ih e he

/-- Every draw of the loop comes from an in-range record and has the geometry
of `signatureDraw`. -/
theorem mem_drawCalls_signLoop (env : Env) (pages : List PageSize) (l : Signatures)
    (c : DrawCall) (hc : c ∈ drawCalls (signLoop env pages l).1) :
    ∃ k r page img, (k, r) ∈ l ∧ 0 ≤ k - 1 ∧ k - 1 < pages.length ∧
      pages.get? (k - 1).toNat = some page ∧ env.embedPng r.dataUrl = some img ∧
      c = signatureDraw (k - 1) page img := by
  induction l with
  | nil => simp [signLoop, drawCalls] at hc
  | cons hd tl ih =>
    obtain ⟨k, r⟩ := hd
    rcases signLoop_cons_cases env pages k r tl with ⟨_, h⟩ | ⟨_, _, h⟩ | ⟨page, img, hr, hp, he, h⟩
    · rw [h] at hc
      obtain ⟨k', r', page, img, hm, rest⟩ := ih hc
      exact ⟨k', r', page, img, List.mem_cons_of_mem _ hm, rest⟩
    · rw [h] at hc
      simp [drawCalls, Effect.drawCall?] at hc
    · rw [h] at hc
      simp only [drawCalls, List.filterMap_cons, Effect.drawCall?, List.mem_cons] at hc
      rcases hc with hc | hc
      · exact ⟨k, r, page, img, List.mem_cons_self _ _, hr.1, hr.2, hp, he, hc⟩
      · obtain ⟨k', r', page', img', hm, rest⟩ := ih hc
        exact ⟨k', r', page', img', List.mem_cons_of_mem _ hm, rest⟩

/-- The loop runs to its end when no in-range record fails to embed. -/
theorem signLoop_ok (env : Env) (pages : List PageSize) (l : Signatures)
    (h : ∀ k r, (k, r) ∈ l → 0 ≤ k - 1 → k - 1 < pages.length →
      env.embedPng r.dataUrl ≠ none) :
    (signLoop env pages l).2 = true := by
  induction l with
  | nil => rfl
  | cons hd tl ih =>
    obtain ⟨k, r⟩ := hd
    have ih' := ih fun k' r' hm => h k' r' (List.mem_cons_of_mem _ hm)
    rcases signLoop_cons_cases env pages k r tl with ⟨_, e⟩ | ⟨hr, he, _⟩ | ⟨page, img, _, _, _, e⟩
    · rw [e]; exact ih'
    · exact absurd he (h k r (List.mem_cons_self _ _) hr.1 hr.2)
    · rw [e]; exact ih'

/-- The loop throws when some in-range record fails to embed. -/
theorem signLoop_throws (env : Env) (pages : List PageSize) (l : Signatures)
    (h : ∃ k r, (k, r) ∈ l ∧ 0 ≤ k - 1 ∧ k - 1 < pages.length ∧
      env.embedPng r.dataUrl = none) :
    (signLoop env pages l).2 = false := by
  induction l with
  | nil => obtain ⟨k, r, hm, _⟩ := h; cases hm
  | cons hd tl ih =>
    obtain ⟨k, r⟩ := hd
    obtain ⟨k', r', hm, h0, h1, he'⟩ := h
    rcases signLoop_cons_cases env pages k r tl with ⟨hr, e⟩ | ⟨_, _, e⟩ | ⟨page, img, _, _, he, e⟩
    · rw [e]
      rcases List.mem_cons.1 hm with hh | hh
      · cases hh; exact absurd ⟨h0, h1⟩ hr
      · exact ih ⟨k', r', hh, h0, h1, he'⟩
    · rw [e]
    · rw [e]
      rcases List.mem_cons.1 hm with hh | hh
      · cases hh; rw [he] at he'; cases he'
      · exact ih ⟨k', r', hh, h0, h1, he'⟩

/-! ## Lemmas on the `try` block -/

theorem signLoop_effects_kind (env : Env) (pages : List PageSize) (l : Signatures) :
    ∀ e ∈ (signLoop env pages l).1,
      e.isAlert = false ∧ e.isDownload = false ∧ e.isAttempt = false := by
  intro e he
  rcases signLoop_effects env pages l e he with ⟨d, rfl⟩ | ⟨c, rfl⟩ <;> exact ⟨rfl, rfl, rfl⟩

theorem filter_isAlert_signLoop (env : Env) (pages : List PageSize) (l : Signatures) :
    (signLoop env pages l).1.filter Effect.isAlert = [] := by
  rw [List.filter_eq_nil_iff]
  intro e he
  simp [(signLoop_effects_kind env pages l e he).1]

theorem filter_isDownload_signLoop (env : Env) (pages : List PageSize) (l : Signatures) :
    (signLoop env pages l).1.filter Effect.isDownload = [] := by
  rw [List.filter_eq_nil_iff]
  intro e he
  simp [(signLoop_effects_kind env pages l e he).2.1]

theorem filter_isAttempt_signLoop (env : Env) (pages : List PageSize) (l : Signatures) :
    (signLoop env pages l).1.filter Effect.isAttempt = [] := by
  rw [List.filter_eq_nil_iff]
  intro e he
  simp [(signLoop_effects_kind env pages l e he).2.2]

/-- What the `try` block does, by the first step that throws (if any). -/
theorem tryBlock_cases (env : Env) (fileUrl : String) (o : Signatures) :
    (env.fetch fileUrl = none ∧ tryBlock env fileUrl o = ([Effect.fetch fileUrl], false)) ∨
    (∃ resp, env.fetch fileUrl = some resp ∧ resp.arrayBuffer = none ∧
      tryBlock env fileUrl o = ([Effect.fetch fileUrl, Effect.arrayBuffer], false)) ∨
    (∃ resp b, env.fetch fileUrl = some resp ∧ resp.arrayBuffer = some b ∧
      env.load b = none ∧
      tryBlock env fileUrl o =
        ([Effect.fetch fileUrl, Effect.arrayBuffer, Effect.load b], false)) ∨
    (∃ resp b pages, env.fetch fileUrl = some resp ∧ resp.arrayBuffer = some b ∧
      env.load b = some pages ∧ (signLoop env pages (Object.entries o)).2 = false ∧
      tryBlock env fileUrl o =
        ([Effect.fetch fileUrl, Effect.arrayBuffer, Effect.load b] ++
          (signLoop env pages (Object.entries o)).1, false)) ∨
    (∃ resp b pages, env.fetch fileUrl = some resp ∧ resp.arrayBuffer = some b ∧
      env.load b = some pages ∧ (signLoop env pages (Object.entries o)).2 = true ∧
      env.save (drawCalls (signLoop env pages (Object.entries o)).1) = none ∧
      tryBlock env fileUrl o =
        ([Effect.fetch fileUrl, Effect.arrayBuffer, Effect.load b] ++
          (signLoop env pages (Object.entries o)).1 ++ [Effect.save], false)) ∨
    (∃ resp b pages pdfBytes, env.fetch fileUrl = some resp ∧ resp.arrayBuffer = some b ∧
      env.load b = some pages ∧ (signLoop env pages (Object.entries o)).2 = true ∧
      env.save (drawCalls (signLoop env pages (Object.entries o)).1) = some pdfBytes ∧
      tryBlock env fileUrl o =
        ([Effect.fetch fileUrl, Effect.arrayBuffer, Effect.load b] ++
          (signLoop env pages (Object.entries o)).1 ++
          [Effect.save, Effect.download pdfBytes "signed_document.pdf" "application/pdf"],
          true)) := by
  unfold tryBlock
  cases hf : env.fetch fileUrl with
  | none => exact Or.inl ⟨rfl, rfl⟩
  | some resp =>
    cases hb : resp.arrayBuffer with
    | none => exact Or.inr (Or.inl ⟨resp, rfl, hb, by simp [hb]⟩)
    | some b =>
      cases hl : env.load b with
      | none => exact Or.inr (Or.inr (Or.inl ⟨resp, b, rfl, hb, hl, by simp [hb, hl]⟩))
      | some pages =>
        cases hloop : (signLoop env pages (Object.entries o)).2 with
        | false =>
          exact Or.inr (Or.inr (Or.inr (Or.inl
            ⟨resp, b, pages, rfl, hb, hl, hloop, by simp [hb, hl, hloop]⟩)))
        | true =>
          cases hs : env.save (drawCalls (signLoop env pages (Object.entries o)).1) with
          | none =>
            exact Or.inr (Or.inr (Or.inr (Or.inr (Or.inl
              ⟨resp, b, pages, rfl, hb, hl, hloop, hs, by simp [hb, hl, hloop, hs]⟩))))
          | some pdfBytes =>
            exact Or.inr (Or.inr (Or.inr (Or.inr (Or.inr
              ⟨resp, b, pages, pdfBytes, rfl, hb, hl, hloop, hs,
                by simp [hb, hl, hloop, hs]⟩))))

/-- Whatever happens, the `try` block raises no alert, makes each of its four
single attempts at most once with `fetch` first, and calls `download` only when
it completes. -/
theorem tryBlock_trace (env : Env) (fileUrl : String) (o : Signatures) :
    (tryBlock env fileUrl o).1.filter Effect.isAlert = [] ∧
      ((tryBlock env fileUrl o).1.filter Effect.isAttempt).Nodup ∧
      ((tryBlock env fileUrl o).1.filter Effect.isAttempt).head? =
        some (Effect.fetch fileUrl) ∧
      ((tryBlock env fileUrl o).2 = false →
        (tryBlock env fileUrl o).1.filter Effect.isDownload = []) ∧
      ((tryBlock env fileUrl o).2 = true →
        ∃ pdfBytes, (tryBlock env fileUrl o).1.filter Effect.isDownload =
          [Effect.download pdfBytes "signed_document.pdf" "application/pdf"]) := by
  rcases tryBlock_cases env fileUrl o with ⟨_, h⟩ | ⟨_, _, _, h⟩ | ⟨_, _, _, _, _, h⟩ |
    ⟨_, _, pages, _, _, _, _, h⟩ | ⟨_, _, pages, _, _, _, _, _, h⟩ |
    ⟨_, _, pages, pdfBytes, _, _, _, _, _, h⟩ <;> rw [h]
  · simp [Effect.isAlert, Effect.isAttempt, Effect.isDownload]
  · simp [Effect.isAlert, Effect.isAttempt, Effect.isDownload]
  · simp [Effect.isAlert, Effect.isAttempt, Effect.isDownload]
  · simp [Effect.isAlert, Effect.isAttempt, Effect.isDownload, List.filter_append,
      filter_isAlert_signLoop, filter_isAttempt_signLoop, filter_isDownload_signLoop]
  · simp [Effect.isAlert, Effect.isAttempt, Effect.isDownload, List.filter_append,
      filter_isAlert_signLoop, filter_isAttempt_signLoop, filter_isDownload_signLoop]
  · simp [Effect.isAlert, Effect.isAttempt, Effect.isDownload, List.filter_append,
      filter_isAlert_signLoop, filter_isAttempt_signLoop, filter_isDownload_signLoop]

theorem mem_entries_iff (o : Signatures) (e : Int × SignatureRecord) :
    e ∈ Object.entries o ↔ e ∈ o := (entries_perm o).mem_iff

theorem tryBlock_fails (env : Env) (fileUrl : String) (o : Signatures)
    (h : env.fetch fileUrl = none ∨
      ∃ resp, env.fetch fileUrl = some resp ∧
        (resp.arrayBuffer = none ∨
          ∃ b, resp.arrayBuffer = some b ∧
            (env.load b = none ∨
              ∃ pages, env.load b = some pages ∧
                ((∃ k r, (k, r) ∈ o ∧ 0 ≤ k - 1 ∧ k - 1 < pages.length ∧
                    env.embedPng r.dataUrl = none) ∨
                  env.save (drawCalls (signLoop env pages (Object.entries o)).1) = none)))) :
    (tryBlock env fileUrl o).2 = false := by
  unfold tryBlock
  rcases h with h | ⟨resp, hf, h | ⟨b, hb, h | ⟨pages, hl, h | h⟩⟩⟩
  · simp [h]
  · simp [hf, h]
  · simp [hf, hb, h]
  · obtain ⟨k, r, hm, h0, h1, he⟩ := h
    have := signLoop_throws env pages (Object.entries o)
      ⟨k, r, (mem_entries_iff o _).2 hm, h0, h1, he⟩
    simp [hf, hb, hl, this]
  · cases hloop : (signLoop env pages (Object.entries o)).2 <;> simp [hf, hb, hl, hloop, h]

/-- Claim C2: when `fetch` rejects, or reading the body rejects, or
`PDFDocument.load` throws, or `embedPng` throws for some in-range stored record, or
`save` throws, `downloadSignedPdf` never calls `download`, shows the generic failure
alert exactly once and no other alert, attempts each of fetch, body read, load and
save at most once (the trace is the `try` block up to the throw, then the log, the
alert and the reset, with nothing after), ends with `setIsGenerating(false)`, and
leaves `isGenerating` false. -/
theorem downloadSignedPdf_aborts_on_failure (env : Env) (fileUrl : String) (s : ViewerState)
    (h : env.fetch fileUrl = none ∨
      ∃ resp, env.fetch fileUrl = some resp ∧
        (resp.arrayBuffer = none ∨
          ∃ b, resp.arrayBuffer = some b ∧
            (env.load b = none ∨
              ∃ pages, env.load b = some pages ∧
                ((∃ k r, (k, r) ∈ s.signatures ∧ 0 ≤ k - 1 ∧ k - 1 < pages.length ∧
                    env.embedPng r.dataUrl = none) ∨
                  env.save
                    (drawCalls (signLoop env pages (Object.entries s.signatures)).1) =
                      none)))) :
    (∀ data filename mimeType,
        Effect.download data filename mimeType ∉ (downloadSignedPdf env fileUrl s).2) ∧
      (downloadSignedPdf env fileUrl s).2.filter Effect.isAlert =
        [Effect.alert "Failed to generate signed PDF. Please try again."] ∧
      ((downloadSignedPdf env fileUrl s).2.filter Effect.isAttempt).Nodup ∧
      ((downloadSignedPdf env fileUrl s).2.filter Effect.isAttempt).head? =
        some (Effect.fetch fileUrl) ∧
      (downloadSignedPdf env fileUrl s).2 =
        Effect.setIsGenerating true :: (tryBlock env fileUrl s.signatures).1 ++
          [Effect.consoleError "Error generating signed PDF:",
           Effect.alert "Failed to generate signed PDF. Please try again.",
           Effect.setIsGenerating false] ∧
      (downloadSignedPdf env fileUrl s).2.getLast? = some (Effect.setIsGenerating false) ∧
      (downloadSignedPdf env fileUrl s).1.isGenerating = false := by
  have hfail := tryBlock_fails env fileUrl s.signatures h
  obtain ⟨halert, hnodup, hhead, hdl, _⟩ := tryBlock_trace env fileUrl s.signatures
  have hdl' := hdl hfail
  have htrace : (downloadSignedPdf env fileUrl s).2 =
      Effect.setIsGenerating true :: (tryBlock env fileUrl s.signatures).1 ++
        [Effect.consoleError "Error generating signed PDF:",
         Effect.alert "Failed to generate signed PDF. Please try again.",
         Effect.setIsGenerating false] := by
    simp [downloadSignedPdf, catchBlock, hfail]
  refine ⟨?_, ?_, ?_, ?_, htrace, ?_, rfl⟩
  · intro data filename mimeType hmem
    rw [htrace] at hmem
    simp only [List.cons_append, List.mem_cons, List.mem_append, List.mem_singleton,
      List.not_mem_nil, or_false] at hmem
    rcases hmem with hmem | hmem | hmem | hmem | hmem
    · cases hmem
    · have : Effect.download data filename mimeType ∈
          (tryBlock env fileUrl s.signatures).1.filter Effect.isDownload :=
        List.mem_filter.2 ⟨hmem, rfl⟩
      rw [hdl'] at this
      cases this
    · cases hmem
    · cases hmem
    · cases hmem
  · rw [htrace]
    simp [List.filter_cons, List.filter_append, halert, Effect.isAlert]
  · rw [htrace]
    simpa [List.filter_cons, List.filter_append, Effect.isAttempt] using hnodup
  · rw [htrace]
    simpa [List.filter_cons, List.filter_append, Effect.isAttempt] using hhead
  · rw [htrace]
    have := List.getLast?_concat (a := Effect.setIsGenerating false)
      (Effect.setIsGenerating true :: (tryBlock env fileUrl s.signatures).1 ++
        [Effect.consoleError "Error generating signed PDF:",
         Effect.alert "Failed to generate signed PDF. Please try again."])
    simpa using this

theorem drawCalls_cons_embedPng (d : String) (t : List Effect) :
    drawCalls (Effect.embedPng d :: t) = drawCalls t := rfl

theorem drawCalls_cons_drawImage (c : DrawCall) (t : List Effect) :
    drawCalls (Effect.drawImage c :: t) = c :: drawCalls t := rfl

/-- In a loop that runs to its end over distinct keys, the page at index `k - 1`
receives one draw when `k` is an in-range key and none otherwise. -/
theorem signLoop_draw_count (env : Env) (pages : List PageSize) (l : Signatures)
    (hwf : WellFormed l)
    (he : ∀ k r, (k, r) ∈ l → 0 ≤ k - 1 → k - 1 < pages.length →
      env.embedPng r.dataUrl ≠ none) (k : Int) :
    ((drawCalls (signLoop env pages l).1).filter fun c => c.pageIndex = k - 1).length =
      if 1 ≤ k ∧ k ≤ pages.length ∧ (getProp l k).isSome then 1 else 0 := by
  induction l with
  | nil => simp [signLoop, drawCalls, getProp]
  | cons hd tl ih =>
    obtain ⟨a, r⟩ := hd
    have hwf' : WellFormed tl := by
      unfold WellFormed at hwf ⊢
      exact (List.nodup_cons.1 hwf).2
    have hnot : a ∉ tl.map Prod.fst := by
      unfold WellFormed at hwf
      exact (List.nodup_cons.1 hwf).1
    have ih' := ih hwf' fun k' r' hm => he k' r' (List.mem_cons_of_mem _ hm)
    rcases signLoop_cons_cases env pages a r tl with ⟨hr, e⟩ | ⟨hr, hnone, _⟩ |
      ⟨page, img, hr, _, _, e⟩
    · rw [e, ih']
      by_cases hak : a = k
      · subst hak
        have h1 : ¬ (1 ≤ a ∧ a ≤ (pages.length : Int) ∧ (getProp tl a).isSome = true) := by
          intro h; exact hr ⟨by omega, by omega⟩
        have h2 : ¬ (1 ≤ a ∧ a ≤ (pages.length : Int) ∧
            (getProp ((a, r) :: tl) a).isSome = true) := by
          intro h; exact hr ⟨by omega, by omega⟩
        rw [if_neg h1, if_neg h2]
      · simp only [getProp, hak, if_false]
    · exact absurd hnone (he a r (List.mem_cons_self _ _) hr.1 hr.2)
    · rw [e]
      simp only [drawCalls_cons_embedPng, drawCalls_cons_drawImage]
      by_cases hak : a = k
      · subst hak
        have hnone : getProp tl a = none := (getProp_eq_none_iff tl a).2 hnot
        rw [hnone] at ih'
        have hz : ((drawCalls (signLoop env pages tl).1).filter
            fun c => c.pageIndex = a - 1).length = 0 := by
          rw [ih']; simp
        have h2 : 1 ≤ a ∧ a ≤ (pages.length : Int) ∧
            (getProp ((a, r) :: tl) a).isSome = true := by
          refine ⟨by omega, by omega, ?_⟩
          simp [getProp]
        rw [if_pos h2]
        simp only [List.filter_cons, signatureDraw, decide_True, if_true, List.length_cons, hz]
      · have hne : ¬ (a - 1 = k - 1) := by omega
        simp only [List.filter_cons, signatureDraw, hne, decide_False, getProp, hak, if_false]
        exact ih'

theorem getProp_of_mem {l : Signatures} (hwf : WellFormed l) {k : Int}
    {r : SignatureRecord} (hm : (k, r) ∈ l) : getProp l k = some r := by
  induction l with
  | nil => cases hm
  | cons hd tl ih =>
    obtain ⟨a, v⟩ := hd
    unfold WellFormed at hwf
    simp only [List.map_cons, List.nodup_cons] at hwf
    rcases List.mem_cons.1 hm with h | h
    · cases h; simp [getProp]
    · have hne : ¬ a = k := by
        rintro rfl
        exact hwf.1 (List.mem_map_of_mem Prod.fst h)
      simp only [getProp, hne, if_false]
      exact ih hwf.2 h

theorem tryBlock_done (env : Env) (fileUrl : String) (o : Signatures) (resp : Response)
    (b : Bytes) (pages : List PageSize) (pdfBytes : Bytes)
    (hf : env.fetch fileUrl = some resp) (hb : resp.arrayBuffer = some b)
    (hl : env.load b = some pages)
    (hloop : (signLoop env pages (Object.entries o)).2 = true)
    (hs : env.save (drawCalls (signLoop env pages (Object.entries o)).1) = some pdfBytes) :
    tryBlock env fileUrl o =
      ([Effect.fetch fileUrl, Effect.arrayBuffer, Effect.load b] ++
        (signLoop env pages (Object.entries o)).1 ++
        [Effect.save, Effect.download pdfBytes "signed_document.pdf" "application/pdf"],
        true) := by
  unfold tryBlock
  simp [hf, hb, hl, hloop, hs]

theorem drawCalls_downloadSignedPdf_done (env : Env) (fileUrl : String) (s : ViewerState)
    (resp : Response) (b : Bytes) (pages : List PageSize) (pdfBytes : Bytes)
    (hf : env.fetch fileUrl = some resp) (hb : resp.arrayBuffer = some b)
    (hl : env.load b = some pages)
    (hloop : (signLoop env pages (Object.entries s.signatures)).2 = true)
    (hs : env.save (drawCalls (signLoop env pages (Object.entries s.signatures)).1) =
      some pdfBytes) :
    (downloadSignedPdf env fileUrl s).2 =
        Effect.setIsGenerating true ::
          ([Effect.fetch fileUrl, Effect.arrayBuffer, Effect.load b] ++
            (signLoop env pages (Object.entries s.signatures)).1 ++
            [Effect.save, Effect.download pdfBytes "signed_document.pdf" "application/pdf",
              Effect.setIsGenerating false]) ∧
      drawCalls (downloadSignedPdf env fileUrl s).2 =
        drawCalls (signLoop env pages (Object.entries s.signatures)).1 := by
  have ht := tryBlock_done env fileUrl s.signatures resp b pages pdfBytes hf hb hl hloop hs
  have h1 : (downloadSignedPdf env fileUrl s).2 =
      Effect.setIsGenerating true ::
        ([Effect.fetch fileUrl, Effect.arrayBuffer, Effect.load b] ++
          (signLoop env pages (Object.entries s.signatures)).1 ++
          [Effect.save, Effect.download pdfBytes "signed_document.pdf" "application/pdf",
            Effect.setIsGenerating false]) := by
    simp [downloadSignedPdf, ht, catchBlock]
  refine ⟨h1, ?_⟩
  rw [h1]
  simp [drawCalls, List.filterMap_append, List.filterMap_cons, Effect.drawCall?]

/-- Claim C1: when no step fails, for a mapping with pairwise distinct keys and a
document of `n` pages, `downloadSignedPdf` draws on the page at index `k - 1` exactly
once if `1 ≤ k ≤ n` and page `k` has a stored record, and not at all otherwise; every
draw puts the embedded image of the record stored for that page; `download` is called
exactly once, with the fixed file name and type; no alert is shown; and
`isGenerating` ends false. -/
theorem downloadSignedPdf_draws_in_range (env : Env) (fileUrl : String) (s : ViewerState)
    (resp : Response) (b : Bytes) (pages : List PageSize)
    (hwf : WellFormed s.signatures)
    (hf : env.fetch fileUrl = some resp) (hb : resp.arrayBuffer = some b)
    (hl : env.load b = some pages)
    (he : ∀ k r, (k, r) ∈ s.signatures → 1 ≤ k → k ≤ pages.length →
      env.embedPng r.dataUrl ≠ none)
    (hs : env.save (drawCalls (signLoop env pages (Object.entries s.signatures)).1) ≠ none) :
    (∀ k : Int,
        ((drawCalls (downloadSignedPdf env fileUrl s).2).filter
          fun c => c.pageIndex = k - 1).length =
          if 1 ≤ k ∧ k ≤ pages.length ∧ (getProp s.signatures k).isSome then 1 else 0) ∧
      (∀ c ∈ drawCalls (downloadSignedPdf env fileUrl s).2,
        ∃ r img, getProp s.signatures (c.pageIndex + 1) = some r ∧
          env.embedPng r.dataUrl = some img ∧ c.image = img) ∧
      (∃ pdfBytes, (downloadSignedPdf env fileUrl s).2.filter Effect.isDownload =
        [Effect.download pdfBytes "signed_document.pdf" "application/pdf"]) ∧
      (downloadSignedPdf env fileUrl s).2.filter Effect.isAlert = [] ∧
      (downloadSignedPdf env fileUrl s).1.isGenerating = false := by
  have he' : ∀ k r, (k, r) ∈ Object.entries s.signatures → 0 ≤ k - 1 →
      k - 1 < pages.length → env.embedPng r.dataUrl ≠ none := by
    intro k r hm h0 h1
    exact he k r ((mem_entries_iff _ _).1 hm) (by omega) (by omega)
  have hloop := signLoop_ok env pages (Object.entries s.signatures) he'
  obtain ⟨pdfBytes, hsave⟩ := Option.ne_none_iff_exists'.1 hs
  obtain ⟨htrace, hdraws⟩ :=
    drawCalls_downloadSignedPdf_done env fileUrl s resp b pages pdfBytes hf hb hl hloop hsave
  have hwf' := wellFormed_entries hwf
  refine ⟨?_, ?_, ⟨pdfBytes, ?_⟩, ?_, rfl⟩
  · intro k
    rw [hdraws, signLoop_draw_count env pages _ hwf' he' k, getProp_entries]
  · intro c hc
    rw [hdraws] at hc
    obtain ⟨k, r, page, img, hm, _, _, _, hemb, hceq⟩ :=
      mem_drawCalls_signLoop env pages _ c hc
    refine ⟨r, img, ?_, hemb, by rw [hceq]; rfl⟩
    have hk : c.pageIndex + 1 = k := by rw [hceq]; simp [signatureDraw]
    rw [hk]
    exact getProp_of_mem hwf ((mem_entries_iff _ _).1 hm)
  · rw [htrace]
    simp [List.filter_cons, List.filter_append, filter_isDownload_signLoop, Effect.isDownload]
  · rw [htrace]
    simp [List.filter_cons, List.filter_append, filter_isAlert_signLoop, Effect.isAlert]

/-- Records on pages 1 and 3 over a two-page document: one draw on page index 0, none
on page index 2, and the download happens. -/
theorem downloadSignedPdf_draws_in_range_witness :
    WellFormed pages13State.signatures ∧
      ((drawCalls (downloadSignedPdf twoPageEnv "blob:doc" pages13State).2).filter
        fun c => c.pageIndex = 1 - 1).length = 1 ∧
      ((drawCalls (downloadSignedPdf twoPageEnv "blob:doc" pages13State).2).filter
        fun c => c.pageIndex = 3 - 1).length = 0 ∧
      ∃ pdfBytes, (downloadSignedPdf twoPageEnv "blob:doc" pages13State).2.filter
        Effect.isDownload =
          [Effect.download pdfBytes "signed_document.pdf" "application/pdf"] :=
  have h := downloadSignedPdf_draws_in_range twoPageEnv "blob:doc" pages13State
    { arrayBuffer := some [37, 80, 68, 70] } [37, 80, 68, 70]
    [{ width := 595, height := 842 }, { width := 595, height := 842 }]
    (by decide) rfl rfl rfl (fun _ _ _ _ _ => by simp [twoPageEnv]) (by simp [twoPageEnv])
  ⟨by decide, (h.1 1).trans (by decide), (h.1 3).trans (by decide), h.2.2.1⟩

/-- In `signingState` the record of page 2 is drawn, then embedding the record of page 5
throws: nothing is downloaded and the alert is shown once. -/
theorem downloadSignedPdf_aborts_on_failure_witness :
    (5, ({ dataUrl := "data:image/png;base64,RklWRQ==",
           position := { x := 400, y := 650 } } : SignatureRecord)) ∈
        signingState.signatures ∧
      embedFailEnv.embedPng "data:image/png;base64,RklWRQ==" = none ∧
      (drawCalls (downloadSignedPdf embedFailEnv "blob:doc" signingState).2).map
        DrawCall.pageIndex = [1] ∧
      (∀ data filename mimeType, Effect.download data filename mimeType ∉
        (downloadSignedPdf embedFailEnv "blob:doc" signingState).2) ∧
      (downloadSignedPdf embedFailEnv "blob:doc" signingState).2.filter Effect.isAlert =
        [Effect.alert "Failed to generate signed PDF. Please try again."] :=
  have h := downloadSignedPdf_aborts_on_failure embedFailEnv "blob:doc" signingState
    (Or.inr ⟨{ arrayBuffer := some [37, 80, 68, 70] }, rfl,
      Or.inr ⟨[37, 80, 68, 70], rfl,
        Or.inr ⟨List.replicate 6 { width := 595, height := 842 }, rfl,
          Or.inl ⟨5, { dataUrl := "data:image/png;base64,RklWRQ==",
                       position := { x := 400, y := 650 } },
            by decide, by decide, by decide, by decide⟩⟩⟩⟩)
  ⟨by decide, by decide, by decide, h.1, h.2.1⟩

/-! ## What the loop does not read -/

theorem insertIndexKey_map (g : SignatureRecord → SignatureRecord)
    (e : Int × SignatureRecord) (l : Signatures) :
    insertIndexKey (e.1, g e.2) (l.map fun e => (e.1, g e.2)) =
      (insertIndexKey e l).map fun e => (e.1, g e.2) := by
  induction l with
  | nil => rfl
  | cons hd tl ih =>
    simp only [List.map_cons, insertIndexKey]
    split
    · rfl
    · rw [List.map_cons, ih]

theorem sortIndexKeys_map (g : SignatureRecord → SignatureRecord) (l : Signatures) :
    sortIndexKeys (l.map fun e => (e.1, g e.2)) =
      (sortIndexKeys l).map fun e => (e.1, g e.2) := by
  induction l with
  | nil => rfl
  | cons hd tl ih =>
    simp only [List.map_cons, sortIndexKeys, ih]
    exact insertIndexKey_map g hd (sortIndexKeys tl)

theorem filter_key_map (p : Int → Bool) (g : SignatureRecord → SignatureRecord)
    (l : Signatures) :
    (l.map fun e => (e.1, g e.2)).filter (fun e => p e.1) =
      (l.filter fun e => p e.1).map fun e => (e.1, g e.2) := by
  induction l with
  | nil => rfl
  | cons hd tl ih =>
    by_cases h : p hd.1 = true
    · simp [List.filter_cons, h, ih]
    · simp [List.filter_cons, h, ih]

theorem entries_map (g : SignatureRecord → SignatureRecord) (o : Signatures) :
    Object.entries (o.map fun e => (e.1, g e.2)) =
      (Object.entries o).map fun e => (e.1, g e.2) := by
  unfold Object.entries
  rw [filter_key_map isArrayIndex, filter_key_map (fun k => !isArrayIndex k),
    sortIndexKeys_map, List.map_append]

/-- The loop reads only the `dataUrl` of a record. -/
theorem signLoop_reposition (env : Env) (pages : List PageSize)
    (repos : SignatureRecord → Position) (l : Signatures) :
    signLoop env pages (l.map fun e => (e.1, { e.2 with position := repos e.2 })) =
      signLoop env pages l := by
  induction l with
  | nil => rfl
  | cons hd tl ih =>
    obtain ⟨k, r⟩ := hd
    simp only [List.map_cons, signLoop, ih]

/-- The loop reads only the height of a page. -/
theorem signLoop_rewidth (env : Env) (pages : List PageSize) (rewidth : PageSize → ℚ)
    (l : Signatures) :
    signLoop env (pages.map fun p => { p with width := rewidth p }) l =
      signLoop env pages l := by
  induction l with
  | nil => rfl
  | cons hd tl ih =>
    obtain ⟨k, r⟩ := hd
    simp only [signLoop, List.length_map, List.get?_eq_getElem?, List.getElem?_map, ih]
    split
    · cases pages[(parseInt k - 1).toNat]? <;> rfl
    · rfl

/-- The loop consults the collaborators only through `embedPng`. -/
theorem signLoop_env (env env' : Env) (h : env'.embedPng = env.embedPng)
    (pages : List PageSize) (l : Signatures) :
    signLoop env' pages l = signLoop env pages l := by
  induction l with
  | nil => rfl
  | cons hd tl ih =>
    obtain ⟨k, r⟩ := hd
    simp only [signLoop, ih, h]

theorem tryBlock_independent (env : Env) (fileUrl : String) (o : Signatures)
    (repos : SignatureRecord → Position) (rewidth : PageSize → ℚ) :
    tryBlock
        { env with
          load := fun b =>
            (env.load b).map (List.map fun p => { p with width := rewidth p }) }
        fileUrl (o.map fun e => (e.1, { e.2 with position := repos e.2 })) =
      tryBlock env fileUrl o := by
  unfold tryBlock
  cases hf : env.fetch fileUrl with
  | none => rfl
  | some resp =>
    simp only [hf]
    cases hb : resp.arrayBuffer with
    | none => rfl
    | some b =>
      simp only [hb]
      cases hl : env.load b with
      | none => simp [hl]
      | some pages =>
        have henv := signLoop_env env
          { env with
            load := fun b =>
              (env.load b).map (List.map fun p => { p with width := rewidth p }) }
          rfl pages (Object.entries o)
        simp only [hl, Option.map_some']
        rw [entries_map fun r => { r with position := repos r }, signLoop_reposition,
          signLoop_rewidth, henv]

/-- Every draw of a run, completed or not, is a draw of its loop. -/
theorem mem_drawCalls_downloadSignedPdf (env : Env) (fileUrl : String) (s : ViewerState)
    (c : DrawCall) (hc : c ∈ drawCalls (downloadSignedPdf env fileUrl s).2) :
    ∃ resp b pages, env.fetch fileUrl = some resp ∧ resp.arrayBuffer = some b ∧
      env.load b = some pages ∧
      c ∈ drawCalls (signLoop env pages (Object.entries s.signatures)).1 := by
  unfold downloadSignedPdf at hc
  rcases tryBlock_cases env fileUrl s.signatures with ⟨_, h⟩ | ⟨_, _, _, h⟩ |
    ⟨_, _, _, _, _, h⟩ | ⟨resp, b, pages, hf, hb, hl, _, h⟩ |
    ⟨resp, b, pages, hf, hb, hl, _, _, h⟩ |
    ⟨resp, b, pages, pdfBytes, hf, hb, hl, _, _, h⟩ <;>
    simp only [h, catchBlock] at hc
  · simp [drawCalls, Effect.drawCall?] at hc
  · simp [drawCalls, Effect.drawCall?] at hc
  · simp [drawCalls, Effect.drawCall?] at hc
  · refine ⟨resp, b, pages, hf, hb, hl, ?_⟩
    simpa [drawCalls, List.filterMap_append, Effect.drawCall?] using hc
  · refine ⟨resp, b, pages, hf, hb, hl, ?_⟩
    simpa [drawCalls, List.filterMap_append, Effect.drawCall?] using hc
  · refine ⟨resp, b, pages, hf, hb, hl, ?_⟩
    simpa [drawCalls, List.filterMap_append, Effect.drawCall?] using hc

/-- A loop that runs to its end draws every in-range record. -/
theorem signLoop_draws_mem (env : Env) (pages : List PageSize) (l : Signatures)
    (he : ∀ k r, (k, r) ∈ l → 0 ≤ k - 1 → k - 1 < pages.length →
      env.embedPng r.dataUrl ≠ none)
    (k : Int) (r : SignatureRecord) (page : PageSize) (img : PngImage)
    (hm : (k, r) ∈ l) (h0 : 0 ≤ k - 1) (h1 : k - 1 < pages.length)
    (hp : pages.get? (k - 1).toNat = some page) (hi : env.embedPng r.dataUrl = some img) :
    signatureDraw (k - 1) page img ∈ drawCalls (signLoop env pages l).1 := by
  induction l with
  | nil => cases hm
  | cons hd tl ih =>
    obtain ⟨a, v⟩ := hd
    have ih' := ih fun k' r' hm' => he k' r' (List.mem_cons_of_mem _ hm')
    rcases signLoop_cons_cases env pages a v tl with ⟨hr, e⟩ | ⟨hr, hnone, _⟩ |
      ⟨page', img', hr, hp', hi', e⟩
    · rw [e]
      rcases List.mem_cons.1 hm with h | h
      · cases h; exact absurd ⟨h0, h1⟩ hr
      · exact ih' h
    · exact absurd hnone (he a v (List.mem_cons_self _ _) hr.1 hr.2)
    · rw [e, drawCalls_cons_embedPng, drawCalls_cons_drawImage]
      rcases List.mem_cons.1 hm with h | h
      · cases h
        rw [hp] at hp'; rw [hi] at hi'
        cases hp'; cases hi'
        exact List.mem_cons_self _ _
      · exact List.mem_cons_of_mem _ (ih' h)

/-- Claim C8: every `drawImage` call of `downloadSignedPdf` belongs to an in-range
stored record `k`, is on page index `k - 1` of height `H`, puts the raster embedded
from the record's `dataUrl`, of dimensions `w × h`, and has `x = 400`,
`y = H - 650 - 0.2 * h`, `width = 0.2 * w`, `height = 0.2 * h`, `opacity = 0.9`; when
no step fails every in-range record receives that call; and the whole trace of calls
is the same whatever positions are stored in the records and whatever the page widths
are.  Numbers are exact rationals. -/
theorem downloadSignedPdf_draw_geometry (env : Env) (fileUrl : String) (s : ViewerState) :
    (∀ c ∈ drawCalls (downloadSignedPdf env fileUrl s).2,
        ∃ k r resp b pages page img,
          (k, r) ∈ s.signatures ∧ env.fetch fileUrl = some resp ∧
          resp.arrayBuffer = some b ∧ env.load b = some pages ∧
          1 ≤ k ∧ k ≤ pages.length ∧ pages.get? (k - 1).toNat = some page ∧
          env.embedPng r.dataUrl = some img ∧
          c.pageIndex = k - 1 ∧ c.image = img ∧
          c.options =
            { x := 400, y := page.height - 650 - 0.2 * img.height,
              width := 0.2 * img.width, height := 0.2 * img.height, opacity := 0.9 }) ∧
      (∀ resp b pages, env.fetch fileUrl = some resp → resp.arrayBuffer = some b →
        env.load b = some pages →
        (∀ k r, (k, r) ∈ s.signatures → 1 ≤ k → k ≤ pages.length →
          env.embedPng r.dataUrl ≠ none) →
        env.save (drawCalls (signLoop env pages (Object.entries s.signatures)).1) ≠ none →
        ∀ k r page img, (k, r) ∈ s.signatures → 1 ≤ k → k ≤ pages.length →
          pages.get? (k - 1).toNat = some page → env.embedPng r.dataUrl = some img →
          ({ pageIndex := k - 1, image := img,
             options :=
               { x := 400, y := page.height - 650 - 0.2 * img.height,
                 width := 0.2 * img.width, height := 0.2 * img.height,
                 opacity := 0.9 } } : DrawCall) ∈
            drawCalls (downloadSignedPdf env fileUrl s).2) ∧
      (∀ (repos : SignatureRecord → Position) (rewidth : PageSize → ℚ),
        (downloadSignedPdf
            { env with
              load := fun b =>
                (env.load b).map (List.map fun p => { p with width := rewidth p }) }
            fileUrl
            { s with
              signatures :=
                s.signatures.map fun e => (e.1, { e.2 with position := repos e.2 }) }).2 =
          (downloadSignedPdf env fileUrl s).2) := by
  have hgeo : ∀ (j : Int) (page : PageSize) (img : PngImage),
      signatureDraw j page img =
        { pageIndex := j, image := img,
          options :=
            { x := 400, y := page.height - 650 - 0.2 * img.height,
              width := 0.2 * img.width, height := 0.2 * img.height, opacity := 0.9 } } := by
    intro j page img
    simp [signatureDraw, PngImage.scale, mul_comm]
  refine ⟨?_, ?_, ?_⟩
  · intro c hc
    obtain ⟨resp, b, pages, hf, hb, hl, hc'⟩ :=
      mem_drawCalls_downloadSignedPdf env fileUrl s c hc
    obtain ⟨k, r, page, img, hm, h0, h1, hp, hi, hceq⟩ :=
      mem_drawCalls_signLoop env pages _ c hc'
    refine ⟨k, r, resp, b, pages, page, img, (mem_entries_iff _ _).1 hm, hf, hb, hl,
      by omega, by omega, hp, hi, ?_, ?_, ?_⟩ <;> rw [hceq, hgeo]
  · intro resp b pages hf hb hl he hs k r page img hm h1 hn hp hi
    have he' : ∀ k r, (k, r) ∈ Object.entries s.signatures → 0 ≤ k - 1 →
        k - 1 < pages.length → env.embedPng r.dataUrl ≠ none := by
      intro k r hm h0 h1
      exact he k r ((mem_entries_iff _ _).1 hm) (by omega) (by omega)
    have hloop := signLoop_ok env pages (Object.entries s.signatures) he'
    obtain ⟨pdfBytes, hsave⟩ := Option.ne_none_iff_exists'.1 hs
    rw [(drawCalls_downloadSignedPdf_done env fileUrl s resp b pages pdfBytes hf hb hl
      hloop hsave).2, ← hgeo]
    exact signLoop_draws_mem env pages _ he' k r page img ((mem_entries_iff _ _).2 hm)
      (by omega) (by omega) hp hi
  · intro repos rewidth
    unfold downloadSignedPdf
    simp only [tryBlock_independent]

/-- A 350 × 150 raster on a page of height 842 is drawn 70 × 30 at (400, 162). -/
theorem downloadSignedPdf_draw_geometry_witness :
    ({ pageIndex := 0, image := { width := 350, height := 150 },
       options := { x := 400, y := 162, width := 70, height := 30, opacity := 9 / 10 } } :
        DrawCall) ∈ drawCalls (downloadSignedPdf twoPageEnv "blob:doc" pages13State).2 := by
  have h := (downloadSignedPdf_draw_geometry twoPageEnv "blob:doc" pages13State).2.1
    { arrayBuffer := some [37, 80, 68, 70] } [37, 80, 68, 70]
    [{ width := 595, height := 842 }, { width := 595, height := 842 }] rfl rfl rfl
    (fun _ _ _ _ _ => by simp [twoPageEnv]) (by simp [twoPageEnv])
    1 { dataUrl := "data:image/png;base64,T05F", position := { x := 400, y := 650 } }
    { width := 595, height := 842 } { width := 350, height := 150 }
    (by decide) (by decide) (by decide) rfl rfl
  norm_num at h
  exact h

/-! ## Invariants of the transition system -/

theorem mem_keys_setProp {o : Signatures} {k k' : Int} {v : SignatureRecord}
    (h : k' ∈ (setProp o k v).map Prod.fst) : k' = k ∨ k' ∈ o.map Prod.fst := by
  rw [keys_setProp] at h
  split at h
  · exact Or.inr h
  · rcases List.mem_append.1 h with h | h
    · exact Or.inr h
    · exact Or.inl (List.mem_singleton.1 h)

theorem mem_keys_foldl_setProp (l acc : Signatures) {k : Int}
    (h : k ∈ (l.foldl (fun acc e => setProp acc e.1 e.2) acc).map Prod.fst) :
    k ∈ acc.map Prod.fst ∨ k ∈ l.map Prod.fst := by
  induction l generalizing acc with
  | nil => exact Or.inl h
  | cons e tl ih =>
    rcases ih _ h with h' | h'
    · rcases mem_keys_setProp h' with h'' | h''
      · exact Or.inr (by simp [h''])
      · exact Or.inl h''
    · exact Or.inr (List.mem_cons_of_mem _ h')

theorem mem_keys_spread {o : Signatures} {k : Int} (h : k ∈ (spread o).map Prod.fst) :
    k ∈ o.map Prod.fst := by
  rcases mem_keys_foldl_setProp _ _ h with h' | h'
  · cases h'
  · exact ((entries_perm o).map Prod.fst).mem_iff.1 h'

/-- The keys of the mapping after `handleSignature` are the old keys and
possibly the current page. -/
theorem mem_keys_handleSignature {s : ViewerState} {k : Int}
    (h : k ∈ (handleSignature s).1.signatures.map Prod.fst) :
    k = s.currentPage ∨ k ∈ s.signatures.map Prod.fst := by
  unfold handleSignature at h
  cases hp : s.signaturePadRef with
  | none => rw [hp] at h; exact Or.inr h
  | some pad =>
    rw [hp] at h
    by_cases hd : pad.toDataURL = ""
    · simp only [hd, ne_eq, not_true_eq_false, if_false] at h
      exact Or.inr h
    · simp only [ne_eq, hd, not_false_eq_true, if_true] at h
      rcases mem_keys_setProp h with h' | h'
      · exact Or.inl h'
      · exact Or.inr (mem_keys_spread h')

theorem currentPage_handleSignature (s : ViewerState) :
    (handleSignature s).1.currentPage = s.currentPage := by
  unfold handleSignature
  cases s.signaturePadRef with
  | none => rfl
  | some pad =>
    by_cases hd : pad.toDataURL = ""
    · simp [hd]
    · simp [hd]

/-- A bound on the current page and on every key, kept by every transition whose
page-change index satisfies the bound shifted by one. -/
theorem step_bound (P : Int → Prop) (fileUrl : String) (s : ViewerState) (e : Event)
    (he : ∀ i, e = Event.pageChange i → P (i + 1))
    (hc : P s.currentPage) (hk : ∀ k ∈ s.signatures.map Prod.fst, P k) :
    P (step fileUrl s e).currentPage ∧
      ∀ k ∈ (step fileUrl s e).signatures.map Prod.fst, P k := by
  cases e with
  | documentLoad n => exact ⟨hc, hk⟩
  | pageChange i => exact ⟨he i rfl, hk⟩
  | padChange pad => exact ⟨hc, hk⟩
  | addSignatureClick => exact ⟨hc, hk⟩
  | saveSignatureClick =>
    refine ⟨?_, ?_⟩
    · simp only [step]; rw [currentPage_handleSignature]; exact hc
    · intro k hmem
      rcases mem_keys_handleSignature hmem with h | h
      · rw [h]; exact hc
      · exact hk k h
  | clearClick => exact ⟨hc, hk⟩
  | cancelClick => exact ⟨hc, hk⟩
  | downloadClick env =>
    simp only [step]
    split
    · exact ⟨hc, hk⟩
    · exact ⟨hc, hk⟩

theorem foldl_step_bound (P : Int → Prop) (fileUrl : String) (events : List Event)
    (s : ViewerState) (he : ∀ i, Event.pageChange i ∈ events → P (i + 1))
    (hc : P s.currentPage) (hk : ∀ k ∈ s.signatures.map Prod.fst, P k) :
    P (events.foldl (step fileUrl) s).currentPage ∧
      ∀ k ∈ (events.foldl (step fileUrl) s).signatures.map Prod.fst, P k := by
  induction events generalizing s with
  | nil => exact ⟨hc, hk⟩
  | cons e tl ih =>
    have hs := step_bound P fileUrl s e
      (fun i hi => he i (by rw [hi]; exact List.mem_cons_self _ _)) hc hk
    exact ih (step fileUrl s e) (fun i hi => he i (List.mem_cons_of_mem _ hi)) hs.1 hs.2

/-- Claim C10: from the first render, after any sequence of events whose page-change
notifications carry an index `i ≥ 0`, the current page is at least 1, every key of
the signature mapping is at least 1, and so the page index `parseInt(key) - 1`
computed by `downloadSignedPdf` is never negative. -/
theorem page_index_one_based (fileUrl : String) (events : List Event)
    (h : ∀ i, Event.pageChange i ∈ events → 0 ≤ i) :
    1 ≤ (run fileUrl events).currentPage ∧
      (∀ k ∈ Object.keys (run fileUrl events).signatures, 1 ≤ k) ∧
      (∀ e ∈ Object.entries (run fileUrl events).signatures, 0 ≤ parseInt e.1 - 1) := by
  have hb := foldl_step_bound (fun k => 1 ≤ k) fileUrl events initialState
    (fun i hi => by have := h i hi; show 1 ≤ i + 1; omega) (by decide)
    (by intro k hk; cases hk)
  have hkeys : ∀ k ∈ Object.keys (run fileUrl events).signatures, 1 ≤ k := by
    intro k hk
    exact hb.2 k (((entries_perm _).map Prod.fst).mem_iff.1 hk)
  refine ⟨hb.1, hkeys, ?_⟩
  intro e he
  have := hkeys e.1 (List.mem_map_of_mem Prod.fst he)
  unfold parseInt
  omega

/-- The session `signingSession` ends on page 1 with keys 1 and 3. -/
theorem page_index_one_based_witness :
    (∀ i, Event.pageChange i ∈ signingSession → 0 ≤ i) ∧
      (run "blob:doc" signingSession).currentPage = 1 ∧
      Object.keys (run "blob:doc" signingSession).signatures = [1, 3] ∧
      ∀ e ∈ Object.entries (run "blob:doc" signingSession).signatures,
        0 ≤ parseInt e.1 - 1 :=
  have hev : ∀ i, Event.pageChange i ∈ signingSession → 0 ≤ i := by
    intro i hi
    simp [signingSession] at hi
    omega
  ⟨hev, by decide, by decide, (page_index_one_based "blob:doc" signingSession hev).2.2⟩

/-- Claim C5 fails as stated: after saving on page 3 and then on page 1 the keys were
created in the order 3, 1, yet the loop embeds and draws the page-1 record first. -/
theorem generation_order_not_insertion_order :
    (run "blob:doc" signingSession).signatures.map Prod.fst = [3, 1] ∧
      Object.keys (run "blob:doc" signingSession).signatures = [1, 3] ∧
      (drawCalls (downloadSignedPdf threePageEnv "blob:doc"
        (run "blob:doc" signingSession)).2).map DrawCall.pageIndex = [0, 2] ∧
      (drawCalls (downloadSignedPdf threePageEnv "blob:doc"
        (run "blob:doc" signingSession)).2).map DrawCall.pageIndex ≠ [2, 0] ∧
      (downloadSignedPdf threePageEnv "blob:doc"
        (run "blob:doc" signingSession)).2.filter
          (fun e => e = Effect.embedPng "data:image/png;base64,T05F" ∨
            e = Effect.embedPng "data:image/png;base64,VEhSRUU=") =
        [Effect.embedPng "data:image/png;base64,T05F",
         Effect.embedPng "data:image/png;base64,VEhSRUU="] := by
  decide


theorem mem_keys_insertIndexKey {e : Int × SignatureRecord} {l : Signatures} {k : Int}
    (h : k ∈ (insertIndexKey e l).map Prod.fst) : k = e.1 ∨ k ∈ l.map Prod.fst := by
  have := ((insertIndexKey_perm e l).map Prod.fst).mem_iff.1 h
  simpa using this

theorem insertIndexKey_sorted (e : Int × SignatureRecord) (l : Signatures)
    (h : (l.map Prod.fst).Pairwise (· ≤ ·)) :
    ((insertIndexKey e l).map Prod.fst).Pairwise (· ≤ ·) := by
  induction l with
  | nil => simp [insertIndexKey]
  | cons hd tl ih =>
    simp only [List.map_cons, List.pairwise_cons] at h
    simp only [insertIndexKey]
    split
    · rename_i hle
      simp only [List.map_cons, List.pairwise_cons]
      refine ⟨?_, h.1, h.2⟩
      intro k hk
      rcases List.mem_cons.1 hk with hk | hk
      · rw [hk]; exact hle
      · exact le_trans hle (h.1 k hk)
    · rename_i hle
      simp only [List.map_cons, List.pairwise_cons]
      refine ⟨?_, ih h.2⟩
      intro k hk
      rcases mem_keys_insertIndexKey hk with hk | hk
      · rw [hk]; omega
      · exact h.1 k hk

theorem sortIndexKeys_sorted (l : Signatures) :
    ((sortIndexKeys l).map Prod.fst).Pairwise (· ≤ ·) := by
  induction l with
  | nil => simp [sortIndexKeys]
  | cons hd tl ih => exact insertIndexKey_sorted hd _ ih

theorem entries_of_index_keys (o : Signatures)
    (h : ∀ k ∈ o.map Prod.fst, isArrayIndex k = true) :
    Object.entries o = sortIndexKeys o := by
  have h' : ∀ e ∈ o, isArrayIndex e.1 = true := fun e he =>
    h e.1 (List.mem_map_of_mem Prod.fst he)
  unfold Object.entries
  rw [List.filter_eq_self.2 h', List.filter_eq_nil_iff.2 (by
    intro e he; simp [h' e he]), List.append_nil]

/-- Over array-index keys, `Object.keys` is strictly ascending. -/
theorem keys_strictly_ascending (o : Signatures) (hwf : WellFormed o)
    (h : ∀ k ∈ o.map Prod.fst, isArrayIndex k = true) :
    (Object.keys o).Pairwise (· < ·) := by
  have hnd : (Object.keys o).Nodup := wellFormed_entries hwf
  have hle : (Object.keys o).Pairwise (· ≤ ·) := by
    unfold Object.keys
    rw [entries_of_index_keys o h]
    exact sortIndexKeys_sorted o
  exact (hle.and hnd).imp fun hab => lt_of_le_of_ne hab.1 hab.2

/-- The pages drawn by the loop follow the order of the records it is given. -/
theorem drawCalls_signLoop_sublist (env : Env) (pages : List PageSize) (l : Signatures) :
    ((drawCalls (signLoop env pages l).1).map DrawCall.pageIndex).Sublist
      (l.map fun e => e.1 - 1) := by
  induction l with
  | nil => simp [signLoop, drawCalls]
  | cons hd tl ih =>
    obtain ⟨a, r⟩ := hd
    rcases signLoop_cons_cases env pages a r tl with ⟨_, e⟩ | ⟨_, _, e⟩ |
      ⟨page, img, _, _, _, e⟩
    · rw [e]; exact List.Sublist.cons _ ih
    · rw [e]; simp [drawCalls, Effect.drawCall?]
    · rw [e, drawCalls_cons_embedPng, drawCalls_cons_drawImage]
      simp only [List.map_cons, signatureDraw]
      exact List.Sublist.cons₂ _ ih

/-- The draws of a run are the draws of its loop, or there are none. -/
theorem drawCalls_downloadSignedPdf_cases (env : Env) (fileUrl : String) (s : ViewerState) :
    drawCalls (downloadSignedPdf env fileUrl s).2 = [] ∨
      ∃ pages, drawCalls (downloadSignedPdf env fileUrl s).2 =
        drawCalls (signLoop env pages (Object.entries s.signatures)).1 := by
  unfold downloadSignedPdf
  rcases tryBlock_cases env fileUrl s.signatures with ⟨_, h⟩ | ⟨_, _, _, h⟩ |
    ⟨_, _, _, _, _, h⟩ | ⟨_, _, pages, _, _, _, _, h⟩ |
    ⟨_, _, pages, _, _, _, _, _, h⟩ |
    ⟨_, _, pages, _, _, _, _, _, _, h⟩ <;>
    simp only [h, catchBlock]
  · left; simp [drawCalls, Effect.drawCall?]
  · left; simp [drawCalls, Effect.drawCall?]
  · left; simp [drawCalls, Effect.drawCall?]
  · right; exact ⟨pages, by simp [drawCalls, List.filterMap_append, Effect.drawCall?]⟩
  · right; exact ⟨pages, by simp [drawCalls, List.filterMap_append, Effect.drawCall?]⟩
  · right; exact ⟨pages, by simp [drawCalls, List.filterMap_append, Effect.drawCall?]⟩

theorem wellFormed_handleSignature {s : ViewerState} (h : WellFormed s.signatures) :
    WellFormed (handleSignature s).1.signatures := by
  unfold handleSignature
  cases s.signaturePadRef with
  | none => exact h
  | some pad =>
    by_cases hd : pad.toDataURL = ""
    · simpa [hd] using h
    · simpa [hd] using wellFormed_setProp (wellFormed_spread h) _ _

theorem wellFormed_step (fileUrl : String) (s : ViewerState) (e : Event)
    (h : WellFormed s.signatures) : WellFormed (step fileUrl s e).signatures := by
  cases e with
  | saveSignatureClick => exact wellFormed_handleSignature h
  | downloadClick env =>
    simp only [step]
    split <;> exact h
  | _ => exact h

/-- In every reachable state the keys of the mapping are pairwise distinct. -/
theorem wellFormed_run (fileUrl : String) (events : List Event) :
    WellFormed (run fileUrl events).signatures := by
  have key : ∀ (evs : List Event) (s : ViewerState), WellFormed s.signatures →
      WellFormed (evs.foldl (step fileUrl) s).signatures := by
    intro evs
    induction evs with
    | nil => intro s hs; exact hs
    | cons e tl ih => intro s hs; exact ih _ (wellFormed_step fileUrl s e hs)
  exact key events initialState (by decide)

/-- Claim C5, amended: from the first render, after any sequence of events whose
page-change notifications carry an index `0 ≤ i < 2^32 - 2`, generation visits the
stored records in strictly ascending page number, whatever the order in which they
were saved: `Object.keys` of the mapping is strictly ascending, and so are the page
indices of the `drawImage` calls of `downloadSignedPdf`, for any collaborators. -/
theorem generation_order_ascending (fileUrl : String) (events : List Event)
    (h : ∀ i, Event.pageChange i ∈ events → 0 ≤ i ∧ i < 4294967294) (env : Env) :
    (Object.keys (run fileUrl events).signatures).Pairwise (· < ·) ∧
      ((drawCalls (downloadSignedPdf env fileUrl (run fileUrl events)).2).map
        DrawCall.pageIndex).Pairwise (· < ·) := by
  have hb := foldl_step_bound (fun k => isArrayIndex k = true) fileUrl events initialState
    (fun i hi => by
      have := h i hi
      show isArrayIndex (i + 1) = true
      simp only [isArrayIndex, Bool.and_eq_true, decide_eq_true_eq]
      omega)
    (by decide) (by intro k hk; cases hk)
  have hkeys := keys_strictly_ascending _ (wellFormed_run fileUrl events) hb.2
  refine ⟨hkeys, ?_⟩
  rcases drawCalls_downloadSignedPdf_cases env fileUrl (run fileUrl events) with h0 | ⟨pages, hp⟩
  · rw [h0]; simp
  · rw [hp]
    refine List.Pairwise.sublist (drawCalls_signLoop_sublist env pages _) ?_
    have : (List.map (fun e => e.1 - 1) (Object.entries (run fileUrl events).signatures)) =
        (Object.keys (run fileUrl events).signatures).map fun k => k - 1 := by
      simp [Object.keys, List.map_map, Function.comp]
    rw [this, List.pairwise_map]
    exact hkeys.imp fun hab => by omega

/-- The session `signingSession` is visited in ascending page order. -/
theorem generation_order_ascending_witness :
    (∀ i, Event.pageChange i ∈ signingSession → 0 ≤ i ∧ i < 4294967294) ∧
      (Object.keys (run "blob:doc" signingSession).signatures).Pairwise (· < ·) ∧
      ((drawCalls (downloadSignedPdf threePageEnv "blob:doc"
        (run "blob:doc" signingSession)).2).map DrawCall.pageIndex).Pairwise (· < ·) :=
  have hev : ∀ i, Event.pageChange i ∈ signingSession → 0 ≤ i ∧ i < 4294967294 := by
    intro i hi
    simp [signingSession] at hi
    omega
  ⟨hev, (generation_order_ascending "blob:doc" signingSession hev threePageEnv).1,
    (generation_order_ascending "blob:doc" signingSession hev threePageEnv).2⟩

end Zignature
